import Mathlib

/-! The structure-of-arrays container `soa::vector_base`.

Shallow embedding of `include/soa/soa.h`.

* `soa.container T` models `soa::container<T, Allocator>`, which the header defines as
  `std::vector<T, Allocator>`: the sequence of elements together with the capacity.
  Field types are taken to be regular: copying or moving an element yields an equal element.
* `soa.vector_base N Types` models `soa::vector_base<MembersDesc, Allocator, Types...>`: the
  tuple `m_soa` of one container per field.  `N` is `members_count`; a field identifier of
  `MembersDesc` is represented by its numeric value `static_cast<size_t>(I)`, an element of
  `Fin N` (the header reads every column with `get<static_cast<size_t>(I)>(m_soa)`, which
  only compiles for values below `members_count`).
* `size_t` positions are natural numbers; `static_cast<ptrdiff_t>(_pos)` is the identity on
  the positions a column can have.
* A member function is given first as what it leaves behind when it returns.  The calls that
  do not return are given next to it: a column whose growth raises (`push_back_raising`,
  `insert_raising`, `resize_raising`) and a request above `max_size()` (`reserve_checked`,
  `resize_checked`, `resize_fill_checked`).
* A reference or pointer into a column is a position in the column's buffer; it is meaningful
  as long as the column keeps that buffer.
* A member the compiler rejects wherever it is used yields `none`.
-/

namespace soa

/-- Error kinds a call can raise. -/
inductive Error where
  | OutOfRange
  | AllocationFailure
  | LengthError
  deriving DecidableEq, Repr

/-! ## One column: `soa::container<T, Allocator>` = `std::vector<T, Allocator>` -/

/-- One column: the elements in index order and the number of elements the current
allocation can hold. -/
structure container (T : Type) where
  data : List T
  cap : Nat
  deriving DecidableEq, Repr

namespace container

variable {T : Type}

/-- A default-constructed `std::vector`: no elements, nothing allocated. -/
def empty_container : container T := ⟨[], 0⟩

/-- The member `std::vector::size`. -/
def size (c : container T) : Nat := c.data.length

/-- The member `std::vector::capacity`. -/
def capacity (c : container T) : Nat := c.cap

/-- The member `std::vector::empty`. -/
def empty (c : container T) : Bool := c.data.isEmpty

/-- Capacity after making room for `extra` more elements: unchanged when they fit, otherwise
the geometric growth `size + max size extra`. -/
def grown_capacity (c : container T) (extra : Nat) : Nat :=
  if c.data.length + extra ≤ c.cap then c.cap else c.data.length + max c.data.length extra

/-- What `std::vector::reserve(n)` leaves behind when it returns, that is when `n` passed the
guard `length_error`: the elements stay, the capacity becomes at least `n`. -/
def reserve (c : container T) (n : Nat) : container T :=
  ⟨c.data, if c.cap < n then n else c.cap⟩

/-- The member `std::vector::shrink_to_fit`: the elements stay, unused capacity is released. -/
def shrink_to_fit (c : container T) : container T :=
  ⟨c.data, c.data.length⟩

/-- The member `std::vector::clear`: all elements are removed, the capacity stays. -/
def clear (c : container T) : container T :=
  ⟨[], c.cap⟩

/-- The member `std::vector::push_back`: one element is appended. -/
def push_back (c : container T) (v : T) : container T :=
  ⟨c.data ++ [v], c.grown_capacity 1⟩

/-- Whether `std::vector::push_back` reallocates the buffer: it does exactly when the new size
is greater than the capacity, and then every reference and pointer into the vector is
invalidated. -/
def push_back_reallocates (c : container T) : Bool :=
  decide (c.cap < c.data.length + 1)

/-- The member `std::vector::pop_back`: the last element is removed.  On an empty vector the
call is outside its contract; the model leaves the vector empty. -/
def pop_back (c : container T) : container T :=
  ⟨c.data.dropLast, c.cap⟩

/-- What `std::vector::resize(n, v)` leaves behind when it returns, that is when `n` passed the
guard `length_error`: the vector is truncated to `n` elements, or copies of `v` are appended up
to `n` elements. -/
def resize (c : container T) (n : Nat) (v : T) : container T :=
  ⟨c.data.take n ++ List.replicate (n - c.data.length) v, c.grown_capacity (n - c.data.length)⟩

/-- The member `std::vector::insert(begin() + pos, v)`: `v` is placed before the element at
`pos`.  For `pos` beyond the end the call is outside its contract; the model appends. -/
def insert (c : container T) (pos : Nat) (v : T) : container T :=
  ⟨c.data.take pos ++ v :: c.data.drop pos, c.grown_capacity 1⟩

/-- The member `std::vector::erase(begin() + first, begin() + last)`: the elements of the
half-open range are removed.  Outside `first ≤ last ≤ size` the call is outside its contract;
the model keeps the elements below `first` and those from `last` on. -/
def erase (c : container T) (first last : Nat) : container T :=
  ⟨c.data.take first ++ c.data.drop last, c.cap⟩

/-- The member `std::vector::at`: bounds-checked element access. -/
def «at» (c : container T) (_index : Nat) : Except Error T :=
  if h : _index < c.data.length then .ok (c.data.get ⟨_index, h⟩) else .error Error.OutOfRange

/-- Assignment through a reference to the element at `_index`; nothing is written when no
such element exists. -/
def assign (c : container T) (_index : Nat) (v : T) : container T :=
  ⟨c.data.set _index v, c.cap⟩

end container

/-! ## The store: `soa::vector_base<MembersDesc, Allocator, Types...>` -/

/-- The alias `value_list = tuple<Types...>`: one value per field, in declaration order. -/
abbrev value_list {N : Nat} (Types : Fin N → Type) : Type := (k : Fin N) → Types k

/-- A reference `T&` to an element of a column, represented by the position of the element
in the buffer the column had when the reference was taken.  It refers to an element only as
long as the column keeps that buffer: a call that reallocates the column invalidates it (see
`container.push_back_reallocates` and `vector_base.load_all_after_push_back`). -/
structure ref where
  index : Nat
  deriving DecidableEq, Repr

/-- The alias `reference_list = tuple<Types&...>` (and `const_reference_list`): component `k`
refers to an element of column `k`. -/
abbrev reference_list (N : Nat) : Type := Fin N → ref

/-- The store: the member `m_soa`, one column per field. -/
structure vector_base (N : Nat) (Types : Fin N → Type) where
  m_soa : (k : Fin N) → container (Types k)

namespace vector_base

variable {N : Nat} {Types : Fin N → Type}

/-- The constant `members_count`. -/
def members_count (_s : vector_base N Types) : Nat := N

/-- The default constructor `vector_base()`: every column is empty. -/
def mk_empty : vector_base N Types := ⟨fun _ => container.empty_container⟩

/-- The member `size`: the size of column 0. -/
def size [NeZero N] (s : vector_base N Types) : Nat := (s.m_soa 0).size

/-- The member `capacity`: the capacity of column 0. -/
def capacity [NeZero N] (s : vector_base N Types) : Nat := (s.m_soa 0).capacity

/-- The member `empty`: whether column 0 is empty. -/
def empty [NeZero N] (s : vector_base N Types) : Bool := (s.m_soa 0).empty

/-- The member `reserve` when the call returns: `reserve(_capacity)` on every column.  The call
with the guard of every column is `reserve_checked`. -/
def reserve (s : vector_base N Types) (_capacity : Nat) : vector_base N Types :=
  ⟨fun k => (s.m_soa k).reserve _capacity⟩

/-- The member `shrink_to_fit`: `shrink_to_fit()` on every column. -/
def shrink_to_fit (s : vector_base N Types) : vector_base N Types :=
  ⟨fun k => (s.m_soa k).shrink_to_fit⟩

/-- The member `clear`: `clear()` on every column. -/
def clear (s : vector_base N Types) : vector_base N Types :=
  ⟨fun k => (s.m_soa k).clear⟩

/-- The private member `push_back_internal`: component `I` of the tuple is appended to
column `I`, for every `I` of the index sequence. -/
def push_back_internal (s : vector_base N Types) (_args : value_list Types) :
    vector_base N Types :=
  ⟨fun I => (s.m_soa I).push_back (_args I)⟩

/-- The private member `resize_internal`: column `I` is resized to `_size` with component `I`
of the tuple as fill value. -/
def resize_internal (s : vector_base N Types) (_size : Nat) (_args : value_list Types) :
    vector_base N Types :=
  ⟨fun I => (s.m_soa I).resize _size (_args I)⟩

/-- The private member `insert_internal`: component `I` of the tuple is inserted at
`begin() + _pos` of column `I`. -/
def insert_internal (s : vector_base N Types) (_pos : Nat) (_args : value_list Types) :
    vector_base N Types :=
  ⟨fun I => (s.m_soa I).insert _pos (_args I)⟩

/-- The private member `erase_internal`: the range `[_startPos, _endPos)` is erased from every
column; the result is `_startPos` and the new store. -/
def erase_internal (s : vector_base N Types) (_startPos _endPos : Nat) :
    Nat × vector_base N Types :=
  (_startPos, ⟨fun I => (s.m_soa I).erase _startPos _endPos⟩)

/-- The member `push_back` called with the field values of one row (a value tuple, or one
positional argument per field): every branch of the dispatch hands the row to
`push_back_internal`. -/
def push_back (s : vector_base N Types) (_args : value_list Types) : vector_base N Types :=
  s.push_back_internal _args

/-- The member `pop_back`: `pop_back()` on every column. -/
def pop_back (s : vector_base N Types) : vector_base N Types :=
  ⟨fun k => (s.m_soa k).pop_back⟩

/-- The member `resize(_size)` when the call returns: every column is resized with the
default-constructed value of its field type.  The call with the guard of every column is
`resize_checked`. -/
def resize [∀ k, Inhabited (Types k)] (s : vector_base N Types) (_size : Nat) :
    vector_base N Types :=
  ⟨fun k => (s.m_soa k).resize _size default⟩

/-- The member `resize(_size, _args...)` called with the field values of one row, when the call
returns.  The call with the guard of every column is `resize_fill_checked`, the call in which
growing a column raises is `resize_raising`. -/
def resize_fill (s : vector_base N Types) (_size : Nat) (_args : value_list Types) :
    vector_base N Types :=
  s.resize_internal _size _args

/-- The member `insert(_pos, _args...)` called with the field values of one row. -/
def insert (s : vector_base N Types) (_pos : Nat) (_args : value_list Types) :
    vector_base N Types :=
  s.insert_internal _pos _args

/-- The member `erase(_startPos, _endPos)`. -/
def erase_range (s : vector_base N Types) (_startPos _endPos : Nat) :
    Nat × vector_base N Types :=
  s.erase_internal _startPos _endPos

/-- The member `erase(_pos)`: `erase(_pos, _pos + 1)`. -/
def erase (s : vector_base N Types) (_pos : Nat) : Nat × vector_base N Types :=
  s.erase_range _pos (_pos + 1)

/-- The const member `at<I>(_index)`: bounds-checked read of column `I`. -/
def «at» (s : vector_base N Types) (I : Fin N) (_index : Nat) : Except Error (Types I) :=
  (s.m_soa I).«at» _index

/-- The mutable member `at<I>(_index)`: a reference to the element, after the same bounds
check. -/
def at_ref (s : vector_base N Types) (I : Fin N) (_index : Nat) : Except Error ref :=
  if _index < (s.m_soa I).size then .ok ⟨_index⟩ else .error Error.OutOfRange

/-- The private member `at_internal`: `at(_index)` on every column; any column that rejects
the index makes the call raise. -/
def at_internal (s : vector_base N Types) (_index : Nat) : Except Error (reference_list N) :=
  if ∀ k, _index < (s.m_soa k).size then .ok (fun _ => ⟨_index⟩) else .error Error.OutOfRange

/-- The member `ref_at`: the tuple of references to row `_index`. -/
def ref_at (s : vector_base N Types) (_index : Nat) : Except Error (reference_list N) :=
  s.at_internal _index

/-- The member `value_at`: the tuple built by `at_internal`, converted to copies of the
referenced elements. -/
def value_at (s : vector_base N Types) (_index : Nat) : Except Error (value_list Types) :=
  if h : ∀ k, _index < (s.m_soa k).data.length then
    .ok (fun k => (s.m_soa k).data.get ⟨_index, h k⟩)
  else .error Error.OutOfRange

/-- Reading through a reference into column `k`; `none` when it refers to no element. -/
def load (s : vector_base N Types) (k : Fin N) (r : ref) : Option (Types k) :=
  (s.m_soa k).data.get? r.index

/-- Reading through every reference of a reference tuple. -/
def load_all (s : vector_base N Types) (r : reference_list N) : Option (value_list Types) :=
  if h : ∀ k, (r k).index < (s.m_soa k).data.length then
    some (fun k => (s.m_soa k).data.get ⟨(r k).index, h k⟩)
  else none

/-- Assignment through a reference into column `k`: only that element of that column is
written. -/
def store (s : vector_base N Types) (k : Fin N) (r : ref) (v : Types k) :
    vector_base N Types :=
  ⟨Function.update s.m_soa k ((s.m_soa k).assign r.index v)⟩

/-- The member `push_back` called with a reference tuple (or const reference tuple): the
referenced elements are read and handed to `push_back_internal`; `none` when a reference
refers to no element. -/
def push_back_refs (s : vector_base N Types) (_args : reference_list N) :
    Option (vector_base N Types) :=
  (s.load_all _args).map s.push_back_internal

/-- Whether the references taken into the store before a `push_back` still refer to elements
after it: they do when the `push_back` reallocates no column. -/
def references_survive_push_back (s : vector_base N Types) : Bool :=
  decide (∀ k, (s.m_soa k).push_back_reallocates = false)

/-- Reading through a reference tuple that was taken in `s` before a `push_back` on `s`, in a
store `t` reached after that `push_back` by calls that reallocate nothing: `none` when the
`push_back` reallocated a column, because the tuple then dangles. -/
def load_all_after_push_back (s t : vector_base N Types) (r : reference_list N) :
    Option (value_list Types) :=
  if s.references_survive_push_back = true then t.load_all r else none

/-- The length invariant of the store: every column has the length of column 0, which is
what `size` reports. -/
def synced [NeZero N] (s : vector_base N Types) : Prop :=
  ∀ k, (s.m_soa k).size = s.size

/-- The stores a caller can build with calls that all return normally: start from the
default-constructed store and apply `push_back`, `pop_back`, `insert`, `erase`, `resize`,
`reserve`, `shrink_to_fit` and `clear`, each within its precondition and none of them raising.
The stores left behind by calls that raise are in `Reached`. -/
inductive Reachable [NeZero N] [∀ k, Inhabited (Types k)] : vector_base N Types → Prop where
  | mk_empty : Reachable mk_empty
  | push_back (s : vector_base N Types) (_args : value_list Types) :
      Reachable s → Reachable (s.push_back _args)
  | pop_back (s : vector_base N Types) :
      Reachable s → 0 < s.size → Reachable s.pop_back
  | insert (s : vector_base N Types) (_pos : Nat) (_args : value_list Types) :
      Reachable s → _pos ≤ s.size → Reachable (s.insert _pos _args)
  | erase_range (s : vector_base N Types) (_startPos _endPos : Nat) :
      Reachable s → _startPos ≤ _endPos → _endPos ≤ s.size →
      Reachable (s.erase_range _startPos _endPos).2
  | erase (s : vector_base N Types) (_pos : Nat) :
      Reachable s → _pos < s.size → Reachable (s.erase _pos).2
  | resize (s : vector_base N Types) (_size : Nat) :
      Reachable s → Reachable (s.resize _size)
  | resize_fill (s : vector_base N Types) (_size : Nat) (_args : value_list Types) :
      Reachable s → Reachable (s.resize_fill _size _args)
  | reserve (s : vector_base N Types) (_capacity : Nat) :
      Reachable s → Reachable (s.reserve _capacity)
  | shrink_to_fit (s : vector_base N Types) :
      Reachable s → Reachable s.shrink_to_fit
  | clear (s : vector_base N Types) :
      Reachable s → Reachable s.clear

/-! ### Calls in which growing a column raises

`push_back_internal`, `resize_internal` and `insert_internal` are fold expressions over the
index sequence: the columns are grown one after the other, in declaration order, with no
handler around the fold.
A `std::vector` member that raises while it allocates or builds the new elements leaves its
own vector as it was.  `raises I` is what the allocator or the field's constructor raises while
column `I` is grown in the call (`none`: nothing). -/

/-- The fold over the columns listed in `todo`: column `I` is replaced by `grow I` of it unless
`fails I` reports an error for it, in which case the fold stops there.  The result is the error
that left the call, if any, and the store left behind. -/
def run_columns (fails : (I : Fin N) → container (Types I) → Option Error)
    (grow : (I : Fin N) → container (Types I) → container (Types I)) :
    List (Fin N) → vector_base N Types → Option Error × vector_base N Types
  | [], s => (none, s)
  | I :: todo, s =>
    match fails I (s.m_soa I) with
    | some e => (some e, s)
    | none => run_columns fails grow todo ⟨Function.update s.m_soa I (grow I (s.m_soa I))⟩

/-- The member `push_back` (through `push_back_internal`) when growing a column may raise. -/
def push_back_raising (raises : Fin N → Option Error) (s : vector_base N Types)
    (_args : value_list Types) : Option Error × vector_base N Types :=
  run_columns (fun I _ => raises I) (fun I c => c.push_back (_args I)) (List.finRange N) s

/-- The member `insert` (through `insert_internal`) when growing a column may raise. -/
def insert_raising (raises : Fin N → Option Error) (s : vector_base N Types) (_pos : Nat)
    (_args : value_list Types) : Option Error × vector_base N Types :=
  run_columns (fun I _ => raises I) (fun I c => c.insert _pos (_args I)) (List.finRange N) s

/-- The member `resize(_size, _args...)` (through `resize_internal`) when growing a column may
raise; a column that is already long enough is not grown, so nothing is raised for it. -/
def resize_raising (raises : Fin N → Option Error) (s : vector_base N Types) (_size : Nat)
    (_args : value_list Types) : Option Error × vector_base N Types :=
  run_columns (fun I c => if c.size < _size then raises I else none)
    (fun I c => c.resize _size (_args I)) (List.finRange N) s

/-- What a call that grows the columns in declaration order leaves behind, given the store `s`
before the call, the store `grown` a call without an error produces and the `result` of the
call.  The call returns normally exactly when no column raises, and then produces `grown`.
Otherwise the error of the first raising column `I` leaves the call, the columns before `I`
are those of `grown`, column `I` and the later columns are those of `s`, and every column
still has the old size exactly when `I` is column 0. -/
def stops_at_first_raise [NeZero N] (raises : Fin N → Option Error)
    (s grown : vector_base N Types) (result : Option Error × vector_base N Types) : Prop :=
  (result.1 = none ↔ ∀ k, raises k = none) ∧
    (result.1 = none → result.2 = grown) ∧
    ∀ e, result.1 = some e →
      ∃ I, raises I = some e ∧
        (∀ k, k < I → raises k = none ∧ result.2.m_soa k = grown.m_soa k) ∧
        (∀ k, I ≤ k → result.2.m_soa k = s.m_soa k) ∧
        ((∀ k, (result.2.m_soa k).size = s.size) ↔ I = 0)

/-! ### Calls that ask for more than `max_size()` elements

`max_size k` is the value of `max_size()` of column `k`; it depends on the field type.  `reserve`
and `resize` are folds over the columns like `push_back`: the guard of a column is evaluated
when its turn comes. -/

/-- The stores a caller can reach when calls may raise: as `Reachable`, but a `push_back`, an
`insert` or a `resize` may raise while it grows a column, and the caller goes on with the store
the call left behind.  With `raises` nowhere an error these are the calls that return. -/
inductive Reached [NeZero N] [∀ k, Inhabited (Types k)] : vector_base N Types → Prop where
  | mk_empty : Reached mk_empty
  | push_back (raises : Fin N → Option Error) (s : vector_base N Types)
      (_args : value_list Types) :
      Reached s → Reached (s.push_back_raising raises _args).2
  | pop_back (s : vector_base N Types) :
      Reached s → 0 < s.size → Reached s.pop_back
  | insert (raises : Fin N → Option Error) (s : vector_base N Types) (_pos : Nat)
      (_args : value_list Types) :
      Reached s → _pos ≤ s.size → Reached (s.insert_raising raises _pos _args).2
  | erase_range (s : vector_base N Types) (_startPos _endPos : Nat) :
      Reached s → _startPos ≤ _endPos → _endPos ≤ s.size →
      Reached (s.erase_range _startPos _endPos).2
  | erase (s : vector_base N Types) (_pos : Nat) :
      Reached s → _pos < s.size → Reached (s.erase _pos).2
  | resize (s : vector_base N Types) (_size : Nat) :
      Reached s → Reached (s.resize _size)
  | resize_fill (raises : Fin N → Option Error) (s : vector_base N Types) (_size : Nat)
      (_args : value_list Types) :
      Reached s → Reached (s.resize_raising raises _size _args).2
  | reserve (s : vector_base N Types) (_capacity : Nat) :
      Reached s → Reached (s.reserve _capacity)
  | shrink_to_fit (s : vector_base N Types) :
      Reached s → Reached s.shrink_to_fit
  | clear (s : vector_base N Types) :
      Reached s → Reached s.clear

end vector_base

/-! ## The dispatch on the arguments of `push_back`, `resize` and `insert` -/

/-- The argument pack `_args...` of a `push_back`, `resize` or `insert` call: one argument that
is a row tuple (a `value_list`, a `reference_list` or a `const_reference_list`), or one
positional argument per field. -/
inductive Args (N : Nat) (Types : Fin N → Type) where
  | value_tuple (v : value_list Types)
  | reference_tuple (r : reference_list N)
  | const_reference_tuple (r : reference_list N)
  | positional (a : value_list Types)

namespace Args

variable {N : Nat} {Types : Fin N → Type}

/-- The number of arguments, `sizeof...(_args)`. -/
def count : Args N Types → Nat
  | value_tuple _ => 1
  | reference_tuple _ => 1
  | const_reference_tuple _ => 1
  | positional _ => N

/-- The test `is_same_v<decay_t<Args>..., reference_list> || ... const_reference_list> || ...
value_list>` on a single argument. -/
def is_row_tuple : Args N Types → Bool
  | value_tuple _ => true
  | reference_tuple _ => true
  | const_reference_tuple _ => true
  | positional _ => false

/-- What `get<I>` reads, for every `I`, from the single argument handed on as the tuple; a
reference tuple is read through its references.  `none` for positional arguments, which are
no tuple, and for a reference that refers to no element. -/
def unpack (s : vector_base N Types) : Args N Types → Option (value_list Types)
  | value_tuple v => some v
  | reference_tuple r => s.load_all r
  | const_reference_tuple r => s.load_all r
  | positional _ => none

/-- What `get<I>` reads, for every `I`, from `forward_as_tuple(_args...)`: the `I`-th argument.
`none` for a single row tuple, whose forwarding tuple has the row tuple as its only
component. -/
def forward_as_tuple : Args N Types → Option (value_list Types)
  | positional a => some a
  | value_tuple _ => none
  | reference_tuple _ => none
  | const_reference_tuple _ => none

end Args

namespace vector_base

variable {N : Nat} {Types : Fin N → Type}

/-- The member template `push_back(Args&&... _args)` with its `if constexpr` dispatch. -/
def push_back_args (s : vector_base N Types) (_args : Args N Types) :
    Option (vector_base N Types) :=
  if _args.count = 1 then
    if _args.is_row_tuple then (_args.unpack s).map s.push_back_internal
    else _args.forward_as_tuple.map s.push_back_internal
  else _args.forward_as_tuple.map s.push_back_internal

/-- The member template `resize(size_t _size, Args&&... _args)` with its dispatch. -/
def resize_args (s : vector_base N Types) (_size : Nat) (_args : Args N Types) :
    Option (vector_base N Types) :=
  if _args.count = 1 then
    if _args.is_row_tuple then (_args.unpack s).map (s.resize_internal _size)
    else _args.forward_as_tuple.map (s.resize_internal _size)
  else _args.forward_as_tuple.map (s.resize_internal _size)

/-- The member template `insert(size_t _pos, Args&&... _args)` with its dispatch. -/
def insert_args (s : vector_base N Types) (_pos : Nat) (_args : Args N Types) :
    Option (vector_base N Types) :=
  if _args.count = 1 then
    if _args.is_row_tuple then (_args.unpack s).map (s.insert_internal _pos)
    else _args.forward_as_tuple.map (s.insert_internal _pos)
  else _args.forward_as_tuple.map (s.insert_internal _pos)

/-! ### `front` and `back` -/

/-- The subtraction `a - b` of two `size_t` values of `w` bits: it wraps around. -/
def size_t_sub (w a b : Nat) : Nat := (a + (2 ^ w - b % 2 ^ w)) % 2 ^ w

/-- The member `front`: `ref_at(0)`. -/
def front (s : vector_base N Types) : Except Error (reference_list N) :=
  s.ref_at 0

/-- The member `back`: `ref_at(size() - 1)`, the subtraction being that of `size_t`, of `w`
bits. -/
def back [NeZero N] (w : Nat) (s : vector_base N Types) : Except Error (reference_list N) :=
  s.ref_at (size_t_sub w s.size 1)

end vector_base

/-! ## Iterators

A raw pointer into the buffer of a column is represented by its distance, in elements, from
`data()` of that column; the column is the one of the pointer's place in the tuple `m_ptr`.
All iterators compared or subtracted belong to the same store, with no reallocation in
between. -/

/-- A raw pointer `T*` into the buffer of a column. -/
structure pointer where
  offset : Int
  deriving DecidableEq, Repr

/-- How the enumeration `MembersDesc` is declared: `enum class` (scoped, as in the
demonstration program, whose identifiers do not convert to `size_t` implicitly) or plain `enum`
(unscoped). -/
inductive enum_kind where
  | scoped
  | unscoped
  deriving DecidableEq, Repr

/-- The state of the classes `const_iterator` and `iterator`: the member `m_ptr`, one pointer
per column.  `iterator` derives from `const_iterator`, adds no state, and steps, subtracts and
compares through its base; its own `operator*` and `value` are in the namespace `iterator`. -/
structure const_iterator (N : Nat) where
  m_ptr : Fin N → pointer

namespace const_iterator

variable {N : Nat} {Types : Fin N → Type}

/-- The prefix `operator++`: every pointer moves one element forward. -/
def incr (it : const_iterator N) : const_iterator N :=
  ⟨fun I => ⟨(it.m_ptr I).offset + 1⟩⟩

/-- The prefix `operator--`: every pointer moves one element back. -/
def decr (it : const_iterator N) : const_iterator N :=
  ⟨fun I => ⟨(it.m_ptr I).offset - 1⟩⟩

/-- The member `operator-(const const_iterator&)`: the difference of the pointers of
column 0. -/
def diff [NeZero N] (it _other : const_iterator N) : Int :=
  (it.m_ptr 0).offset - (_other.m_ptr 0).offset

/-- The member `operator==`: `m_ptr == _other.m_ptr`, the comparison of the two tuples. -/
def eq (it _other : const_iterator N) : Bool :=
  decide (∀ I, it.m_ptr I = _other.m_ptr I)

/-- The member `operator!=`: `m_ptr != _other.m_ptr`. -/
def ne (it _other : const_iterator N) : Bool :=
  !decide (∀ I, it.m_ptr I = _other.m_ptr I)

/-- The reference `*p` for a pointer `p` into column `k` of the store; `none` when `p` points
at no element. -/
def deref (s : vector_base N Types) (k : Fin N) (p : pointer) : Option ref :=
  if 0 ≤ p.offset ∧ p.offset < ((s.m_soa k).size : Int) then some ⟨p.offset.toNat⟩ else none

/-- The member `const_iterator::operator*`: the tuple of the references `*p`, one per column;
`none` when a pointer points at no element. -/
def star (s : vector_base N Types) (it : const_iterator N) : Option (reference_list N) :=
  if ∀ I, 0 ≤ (it.m_ptr I).offset ∧ (it.m_ptr I).offset < ((s.m_soa I).size : Int) then
    some fun I => ⟨(it.m_ptr I).offset.toNat⟩
  else none

/-- The member `const_iterator::value<MemberIndex>()`: `*get<MemberIndex>(m_ptr)`, with the
identifier itself as the template argument of `get`.  An identifier of a scoped enumeration
does not convert to `size_t`, so the call is rejected at compile time: `none`. -/
def value (kind : enum_kind) (s : vector_base N Types) (it : const_iterator N)
    (MemberIndex : Fin N) : Option ref :=
  match kind with
  | enum_kind.scoped => none
  | enum_kind.unscoped => deref s MemberIndex (it.m_ptr MemberIndex)

end const_iterator

namespace iterator

variable {N : Nat} {Types : Fin N → Type}

/-- The member `iterator::operator*`: `reference_list{ *const_cast<remove_const_t<
decltype(_obj)>>(_obj)... }`.  `_obj` is a `const T*`, from which `remove_const_t` removes
nothing, so each `*...` is a `const T&`, which cannot initialise the `T&` of `reference_list`:
the member is ill-formed and every use of it is rejected at compile time: `none`. -/
def star (_s : vector_base N Types) (_it : const_iterator N) : Option (reference_list N) :=
  none

/-- The member `iterator::value<MemberIndex>()`: `*const_cast<...>(get<static_cast<size_t>(
MemberIndex)>(const_iterator::m_ptr))`. -/
def value (s : vector_base N Types) (it : const_iterator N) (MemberIndex : Fin N) :
    Option ref :=
  const_iterator.deref s MemberIndex (it.m_ptr MemberIndex)

end iterator

/-- The state of the classes `partial_const_iterator<Members...>` and
`partial_iterator<Members...>`: the member `m_ptr`, one pointer per selected field; pointer `j`
points into column `Members[j]`.  `partial_iterator` derives from `partial_const_iterator`,
adds no state, and steps, subtracts and compares through its base; its own `operator*` and
`value` are in the namespace `partial_iterator`. -/
structure partial_const_iterator (N : Nat) (Members : List (Fin N)) where
  m_ptr : Fin Members.length → pointer

namespace partial_const_iterator

variable {N : Nat} {Types : Fin N → Type} {Members : List (Fin N)}

/-- The static member `ms_mapping`: `static_cast<size_t>(Members)...`. -/
def ms_mapping (Members : List (Fin N)) : List Nat :=
  Members.map fun M => M.val

/-- The static member `getIndex<MemberIndex, Index>()`: `Index` when `ms_mapping[Index]` is
the identifier, otherwise `getIndex<MemberIndex, Index + 1>()`.  Reading `ms_mapping` past
its end is no constant expression, so the request is rejected at compile time: `none`. -/
def getIndex (mapping : List Nat) (MemberIndex : Nat) (Index : Nat) : Option Nat :=
  if h : Index < mapping.length then
    if mapping.get ⟨Index, h⟩ = MemberIndex then some Index
    else getIndex mapping MemberIndex (Index + 1)
  else none
termination_by mapping.length - Index

/-- The prefix `operator++`: every pointer moves one element forward. -/
def incr (it : partial_const_iterator N Members) : partial_const_iterator N Members :=
  ⟨fun j => ⟨(it.m_ptr j).offset + 1⟩⟩

/-- The prefix `operator--`: every pointer moves one element back. -/
def decr (it : partial_const_iterator N Members) : partial_const_iterator N Members :=
  ⟨fun j => ⟨(it.m_ptr j).offset - 1⟩⟩

/-- The member `operator-(const partial_const_iterator&)`: the difference of the pointers of
the first selected field. -/
def diff (it _other : partial_const_iterator N Members) (h : 0 < Members.length) : Int :=
  (it.m_ptr ⟨0, h⟩).offset - (_other.m_ptr ⟨0, h⟩).offset

/-- The member `operator==`: `m_ptr == _other.m_ptr`. -/
def eq (it _other : partial_const_iterator N Members) : Bool :=
  decide (∀ j, it.m_ptr j = _other.m_ptr j)

/-- The member `operator!=`: `m_ptr != _other.m_ptr`. -/
def ne (it _other : partial_const_iterator N Members) : Bool :=
  !decide (∀ j, it.m_ptr j = _other.m_ptr j)

/-- The member `partial_const_iterator::operator*`: the tuple of the references `*p`, one per
selected field, in the order of the selection.  Component `j` is the column pointer `j` points
into, `Members[j]`, and the reference to its element; `none` when a pointer points at no
element. -/
def star (s : vector_base N Types) (it : partial_const_iterator N Members) :
    Option (Fin Members.length → Fin N × ref) :=
  if ∀ j, 0 ≤ (it.m_ptr j).offset ∧
      (it.m_ptr j).offset < ((s.m_soa (Members.get j)).size : Int) then
    some fun j => (Members.get j, ⟨(it.m_ptr j).offset.toNat⟩)
  else none

/-- The member `partial_const_iterator::value<MemberIndex>()`:
`*get<getIndex<MemberIndex>()>(m_ptr)`.  The result is the column the pointer points into and
the reference to its element; `none` when `getIndex` is rejected or the pointer points at no
element. -/
def value (s : vector_base N Types) (it : partial_const_iterator N Members)
    (MemberIndex : Fin N) : Option (Fin N × ref) :=
  match getIndex (ms_mapping Members) MemberIndex.val 0 with
  | none => none
  | some j =>
    if h : j < Members.length then
      (const_iterator.deref s (Members.get ⟨j, h⟩) (it.m_ptr ⟨j, h⟩)).map
        fun r => (Members.get ⟨j, h⟩, r)
    else none

end partial_const_iterator

namespace partial_iterator

variable {N : Nat} {Types : Fin N → Type} {Members : List (Fin N)}

/-- The member `partial_iterator::operator*`: `partial_ref_list<Members...>{ *(_obj)... }`.
`_obj` is a pointer of the base class, a `const T*`, so each `*(_obj)` is a `const T&`, which
cannot initialise the `T&` of `partial_ref_list`: the member is ill-formed and every use of it
is rejected at compile time: `none`. -/
def star (_s : vector_base N Types) (_it : partial_const_iterator N Members) :
    Option (Fin Members.length → Fin N × ref) :=
  none

/-- The member `partial_iterator::value<MemberIndex>()`: `*const_cast<...>(get<getIndex<
MemberIndex>()>(base_iterator::m_ptr))`, with the `getIndex` of `partial_iterator`, which is
that of its base word for word. -/
def value (s : vector_base N Types) (it : partial_const_iterator N Members)
    (MemberIndex : Fin N) : Option (Fin N × ref) :=
  partial_const_iterator.value s it MemberIndex

end partial_iterator

namespace vector_base

variable {N : Nat} {Types : Fin N → Type}

/-- The private member `begin_internal`: `get<I>(m_soa).data()...`. -/
def begin_internal (_s : vector_base N Types) : const_iterator N :=
  ⟨fun _ => ⟨0⟩⟩

/-- The private member `end_internal`: `get<I>(m_soa).data() + size...`, with `size` the
value of `this->size()`. -/
def end_internal [NeZero N] (s : vector_base N Types) : const_iterator N :=
  ⟨fun _ => ⟨(s.size : Int)⟩⟩

/-- The members `begin` and `cbegin`: the state of the `iterator` that `begin()` returns on a
mutable store and of the `const_iterator` that `begin() const` and `cbegin()` return. -/
def begin (s : vector_base N Types) : const_iterator N :=
  s.begin_internal

/-- The members `end` and `cend`: the state of the `iterator` that `end()` returns on a mutable
store and of the `const_iterator` that `end() const` and `cend()` return. -/
def «end» [NeZero N] (s : vector_base N Types) : const_iterator N :=
  s.end_internal

/-- The member templates `begin<Members...>` and `cbegin<Members...>`:
`get<static_cast<size_t>(Members)>(m_soa).data()...`, the state of the `partial_iterator` that
`begin<Members...>()` returns on a mutable store and of the `partial_const_iterator` that
`begin<Members...>() const` and `cbegin<Members...>()` return. -/
def begin_members (_s : vector_base N Types) (Members : List (Fin N)) :
    partial_const_iterator N Members :=
  ⟨fun _ => ⟨0⟩⟩

/-- The member templates `end<Members...>` and `cend<Members...>`:
`get<static_cast<size_t>(Members)>(m_soa).data() + size...`, with `size` the value of
`this->size()`; the state of a `partial_iterator` or of a `partial_const_iterator` as for
`begin<Members...>`. -/
def end_members [NeZero N] (s : vector_base N Types) (Members : List (Fin N)) :
    partial_const_iterator N Members :=
  ⟨fun _ => ⟨(s.size : Int)⟩⟩

end vector_base

/-! ### Offset arithmetic on iterators -/

/-- The iterator category tags of the standard library. -/
inductive iterator_tag where
  | input_iterator_tag
  | forward_iterator_tag
  | bidirectional_iterator_tag
  | random_access_iterator_tag
  deriving DecidableEq, Repr

namespace const_iterator

variable {N : Nat}

/-- The member alias `iterator_category` of `const_iterator` and of `iterator`. -/
def iterator_category : iterator_tag := iterator_tag.random_access_iterator_tag

/-- The expression `it + n`.  Neither `const_iterator` nor `iterator` declares an `operator+`
(nor an `operator+=`), so the expression is rejected at compile time: `none`. -/
def plus (_it : const_iterator N) (_n : Int) : Option (const_iterator N) := none

/-- The expression `it - n` for an integer `n`.  The only `operator-` of `const_iterator` and
`iterator` takes another iterator, so the expression is rejected at compile time: `none`. -/
def minus (_it : const_iterator N) (_n : Int) : Option (const_iterator N) := none

end const_iterator

namespace partial_const_iterator

variable {N : Nat} {Members : List (Fin N)}

/-- The member alias `iterator_category` of `partial_const_iterator` and of
`partial_iterator`. -/
def iterator_category : iterator_tag := iterator_tag.random_access_iterator_tag

/-- The expression `it + n`.  Neither `partial_const_iterator` nor `partial_iterator` declares
an `operator+` (nor an `operator+=`), so the expression is rejected at compile time: `none`. -/
def plus (_it : partial_const_iterator N Members) (_n : Int) :
    Option (partial_const_iterator N Members) := none

/-- The expression `it - n` for an integer `n`.  The only `operator-` of the partial iterators
takes another iterator, so the expression is rejected at compile time: `none`. -/
def minus (_it : partial_const_iterator N Members) (_n : Int) :
    Option (partial_const_iterator N Members) := none

end partial_const_iterator

/-! ## The allocator adapter `allocator_wrapper<T>`

An adapter is an object: it lives at an address, the value of `this`, and holds the member
`m_allocator`.  Two adapters alive at the same time live at different addresses. -/

/-- An adapter object for the field type `T`: the address it lives at and the allocator it
wraps. -/
structure allocator_wrapper (Allocator : Type) (T : Type) where
  address : Nat
  m_allocator : Allocator

namespace allocator_wrapper

variable {Allocator : Type} {T U : Type}

/-- The member `operator==`: `this == &_other`. -/
def eq (self _other : allocator_wrapper Allocator T) : Bool :=
  decide (self.address = _other.address)

/-- The member `operator!=`: `this != &_other`. -/
def ne (self _other : allocator_wrapper Allocator T) : Bool :=
  !decide (self.address = _other.address)

/-- The converting constructor `allocator_wrapper(const allocator_wrapper<U>& _other)`: a new
adapter for `T`, built at `address`, that wraps `_other.m_allocator`. -/
def convert (address : Nat) (_other : allocator_wrapper Allocator U) :
    allocator_wrapper Allocator T :=
  ⟨address, _other.m_allocator⟩

/-- The comparison `self == _other` of adapters for different field types: `operator==` takes
an adapter for `T`, so `_other` is first converted into a temporary adapter for `T`, built at
the address `temporary`. -/
def eq_converted (self : allocator_wrapper Allocator T) (temporary : Nat)
    (_other : allocator_wrapper Allocator U) : Bool :=
  self.eq (convert temporary _other)

end allocator_wrapper

/-! ## A store of two fields, `(int, string)` -/

/-- The field types of the two-field store. -/
def ExampleTypes : Fin 2 → Type
  | ⟨0, _⟩ => Int
  | ⟨1, _⟩ => String

instance ExampleTypes.inhabited : ∀ k, Inhabited (ExampleTypes k)
  | ⟨0, _⟩ => ⟨(0 : Int)⟩
  | ⟨1, _⟩ => ⟨""⟩

/-- The row `(i, name)` of the two-field store. -/
def example_row (i : Int) (name : String) : value_list ExampleTypes
  | ⟨0, _⟩ => i
  | ⟨1, _⟩ => name

/-- The rows `(1,"a")`, `(2,"b")`, `(3,"c")`. -/
def example_rows : List (value_list ExampleTypes) :=
  [example_row 1 "a", example_row 2 "b", example_row 3 "c"]

/-- The store after pushing `(1,"a")`, `(2,"b")`, `(3,"c")` onto the empty store. -/
def example_store : vector_base 2 ExampleTypes :=
  ((vector_base.mk_empty.push_back (example_row 1 "a")).push_back
    (example_row 2 "b")).push_back (example_row 3 "c")

/-- Growing column 1 raises an allocation failure; growing column 0 does not. -/
def raises_in_column_one : Fin 2 → Option Error
  | ⟨0, _⟩ => none
  | ⟨1, _⟩ => some Error.AllocationFailure

/-- Growing column 0 raises an allocation failure. -/
def raises_in_column_zero : Fin 2 → Option Error
  | ⟨0, _⟩ => some Error.AllocationFailure
  | ⟨1, _⟩ => none

/-- The selection `<1, 0, 1>` of the two-field store: field 1, then field 0, then field 1
again. -/
def example_members : List (Fin 2) := [1, 0, 1]

/-- Two adapters for the same field type that live at different addresses and wrap the same
allocator, here the allocator named 7. -/
def example_adapter_a : allocator_wrapper Nat Int := ⟨100, 7⟩

/-- The second adapter wrapping the allocator named 7. -/
def example_adapter_b : allocator_wrapper Nat Int := ⟨200, 7⟩

/-- An adapter for another field type wrapping the allocator named 7. -/
def example_adapter_c : allocator_wrapper Nat String := ⟨300, 7⟩

/-! ## Facts about one column -/

namespace container

variable {T : Type}

theorem size_push_back (c : container T) (v : T) : (c.push_back v).size = c.size + 1 := by
  simp [push_back, size]

theorem size_pop_back (c : container T) : c.pop_back.size = c.size - 1 := by
  simp [pop_back, size]

theorem size_insert (c : container T) (pos : Nat) (v : T) (h : pos ≤ c.size) :
    (c.insert pos v).size = c.size + 1 := by
  simp only [size] at h
  simp only [insert, size, List.length_append, List.length_take, List.length_cons,
    List.length_drop]
  omega

theorem size_erase (c : container T) (first last : Nat) (h1 : first ≤ last)
    (h2 : last ≤ c.size) : (c.erase first last).size = c.size - (last - first) := by
  simp only [size] at h2
  simp only [erase, size, List.length_append, List.length_take, List.length_drop]
  omega

theorem size_resize (c : container T) (n : Nat) (v : T) : (c.resize n v).size = n := by
  simp only [resize, size, List.length_append, List.length_take, List.length_replicate]
  omega

theorem size_reserve (c : container T) (n : Nat) : (c.reserve n).size = c.size := rfl

theorem size_shrink_to_fit (c : container T) : c.shrink_to_fit.size = c.size := rfl

theorem size_clear (c : container T) : c.clear.size = 0 := rfl

theorem column_at_eq_ok_iff (c : container T) (i : Nat) (v : T) :
    c.«at» i = .ok v ↔ c.data[i]? = some v := by
  unfold container.«at»
  by_cases h : i < c.data.length
  · simp [h, List.getElem?_eq_getElem]
  · simp [h, List.getElem?_eq_none (Nat.le_of_not_lt h)]

theorem column_at_eq_error_iff (c : container T) (i : Nat) (e : Error) :
    c.«at» i = .error e ↔ e = Error.OutOfRange ∧ c.size ≤ i := by
  unfold container.«at» size
  by_cases h : i < c.data.length
  · simp [h]
  · simp [h, Nat.le_of_not_lt h, eq_comm]

theorem column_at_congr (c d : container T) (i j : Nat) (h : c.data[i]? = d.data[j]?) :
    c.«at» i = d.«at» j := by
  cases hd : d.«at» j with
  | ok v => rw [column_at_eq_ok_iff] at hd ⊢; rw [h, hd]
  | error e =>
    rw [column_at_eq_error_iff] at hd ⊢
    refine ⟨hd.1, ?_⟩
    have := hd.2
    simp only [size] at this ⊢
    rw [← List.getElem?_eq_none_iff] at this ⊢
    rw [h, this]

theorem getElem?_push_back (c : container T) (v : T) (i : Nat) :
    (c.push_back v).data[i]? = if i < c.size then c.data[i]? else if i = c.size then some v else none := by
  simp only [push_back, size]
  split_ifs with h1 h2
  · rw [List.getElem?_append_left h1]
  · subst h2; simp
  · rw [List.getElem?_eq_none]; simp; omega

theorem getElem?_pop_back (c : container T) (i : Nat) :
    c.pop_back.data[i]? = if i < c.size - 1 then c.data[i]? else none := by
  simp only [pop_back, size, List.dropLast_eq_take, List.getElem?_take]

theorem getElem?_erase (c : container T) (a b i : Nat) (hab : a ≤ b) :
    (c.erase a b).data[i]? = if i < a then c.data[i]? else c.data[i + (b - a)]? := by
  simp only [erase]
  by_cases hl : a ≤ c.data.length
  · split_ifs with h
    · rw [List.getElem?_append_left (by simp; omega), List.getElem?_take_of_lt h]
    · rw [List.getElem?_append_right (by simp; omega)]
      simp only [List.length_take, List.getElem?_drop, Nat.min_eq_left hl]
      congr 1; omega
  · have h1 : c.data.take a = c.data := List.take_of_length_le (by omega)
    have h2 : c.data.drop b = [] := List.drop_of_length_le (by omega)
    rw [h1, h2, List.append_nil]
    split_ifs with h
    · rfl
    · rw [List.getElem?_eq_none (by omega), List.getElem?_eq_none (by omega)]

theorem getElem?_insert (c : container T) (p : Nat) (v : T) (i : Nat) (hp : p ≤ c.size) :
    (c.insert p v).data[i]? =
      if i < p then c.data[i]? else if i = p then some v else c.data[i - 1]? := by
  simp only [insert, size] at hp ⊢
  split_ifs with h1 h2
  · rw [List.getElem?_append_left (by simp; omega), List.getElem?_take_of_lt h1]
  · subst h2
    rw [List.getElem?_append_right (by simp)]
    simp [Nat.min_eq_left hp]
  · rw [List.getElem?_append_right (by simp; omega)]
    simp only [List.length_take, Nat.min_eq_left hp]
    obtain ⟨m, hm⟩ : ∃ m, i - p = m + 1 := ⟨i - p - 1, by omega⟩
    rw [hm, List.getElem?_cons_succ, List.getElem?_drop]
    congr 1; omega

end container

/-! ## The length invariant -/

namespace vector_base

variable {N : Nat} {Types : Fin N → Type}

theorem synced_of_forall [NeZero N] (s : vector_base N Types) (n : Nat)
    (h : ∀ k, (s.m_soa k).size = n) : s.synced := by
  intro k
  rw [size, h k, h 0]

theorem Reachable.synced [NeZero N] [∀ k, Inhabited (Types k)] {s : vector_base N Types}
    (h : Reachable s) : s.synced := by
  induction h with
  | mk_empty => intro k; rfl
  | push_back s a _ ih =>
    exact synced_of_forall _ (s.size + 1) fun k => by
      simp only [vector_base.push_back, push_back_internal, container.size_push_back, ih k]
  | pop_back s _ _ ih =>
    exact synced_of_forall _ (s.size - 1) fun k => by
      simp only [vector_base.pop_back, container.size_pop_back, ih k]
  | insert s p a _ hp ih =>
    exact synced_of_forall _ (s.size + 1) fun k => by
      simp only [vector_base.insert, insert_internal]
      rw [container.size_insert _ _ _ (by rw [ih k]; exact hp), ih k]
  | erase_range s a b _ hab hb ih =>
    exact synced_of_forall _ (s.size - (b - a)) fun k => by
      simp only [vector_base.erase_range, erase_internal]
      rw [container.size_erase _ _ _ hab (by rw [ih k]; exact hb), ih k]
  | erase s p _ hp ih =>
    exact synced_of_forall _ (s.size - (p + 1 - p)) fun k => by
      simp only [vector_base.erase, vector_base.erase_range, erase_internal]
      rw [container.size_erase _ _ _ (Nat.le_succ p) (by rw [ih k]; exact hp), ih k]
  | resize s n _ _ =>
    exact synced_of_forall _ n fun k => by
      simp only [vector_base.resize, container.size_resize]
  | resize_fill s n a _ _ =>
    exact synced_of_forall _ n fun k => by
      simp only [vector_base.resize_fill, resize_internal, container.size_resize]
  | reserve s n _ ih =>
    exact synced_of_forall _ s.size fun k => by
      simp only [vector_base.reserve, container.size_reserve, ih k]
  | shrink_to_fit s _ ih =>
    exact synced_of_forall _ s.size fun k => by
      simp only [vector_base.shrink_to_fit, container.size_shrink_to_fit, ih k]
  | clear s _ _ =>
    exact synced_of_forall _ 0 fun k => by
      simp only [vector_base.clear, container.size_clear]

/-- Claim C1, as the code behaves: every store reached from the empty store by `push_back`,
`pop_back`, `insert`, `erase`, `resize`, `reserve`, `shrink_to_fit` and `clear` calls that are
within their preconditions and all return normally has all columns of equal length, and
`size()` is that common length. -/
theorem all_columns_equal_length [NeZero N] [∀ k, Inhabited (Types k)]
    (s : vector_base N Types) (h : Reachable s) :
    (∀ j k, (s.m_soa j).data.length = (s.m_soa k).data.length) ∧
      ∀ k, s.size = (s.m_soa k).data.length := by
  have hs := h.synced
  refine ⟨fun j k => ?_, fun k => (hs k).symm⟩
  have hj := hs j
  have hk := hs k
  simp only [container.size] at hj hk
  rw [hj, hk]

end vector_base

/-! ## The two-field store -/

theorem example_store_reachable : vector_base.Reachable example_store :=
  .push_back _ _ (.push_back _ _ (.push_back _ _ .mk_empty))

/-- Witness for claim C1 as the code behaves: the store built by three `push_back`, `erase(0)`,
`resize(4, 0, "z")` and `pop_back`, all returning normally, is reachable, and its columns have
equal length, the value of `size()`. -/
theorem all_columns_equal_length_witness :
    vector_base.Reachable
        ((example_store.erase 0).2.resize_fill 4 (example_row 0 "z")).pop_back ∧
      ((∀ j k, ((((example_store.erase 0).2.resize_fill 4 (example_row 0 "z")).pop_back).m_soa
            j).data.length =
          ((((example_store.erase 0).2.resize_fill 4 (example_row 0 "z")).pop_back).m_soa
            k).data.length) ∧
        ∀ k, (((example_store.erase 0).2.resize_fill 4 (example_row 0 "z")).pop_back).size =
          ((((example_store.erase 0).2.resize_fill 4 (example_row 0 "z")).pop_back).m_soa
            k).data.length) :=
  have h : vector_base.Reachable
      ((example_store.erase 0).2.resize_fill 4 (example_row 0 "z")).pop_back :=
    .pop_back _ (.resize_fill _ 4 _ (.erase _ 0 example_store_reachable (by decide)))
      (by decide)
  ⟨h, vector_base.all_columns_equal_length _ h⟩

/-! ## Rows of the store -/

namespace vector_base

variable {N : Nat} {Types : Fin N → Type}

theorem at_eq_ok_iff (s : vector_base N Types) (F : Fin N) (i : Nat) (v : Types F) :
    s.«at» F i = .ok v ↔ (s.m_soa F).data[i]? = some v :=
  container.column_at_eq_ok_iff _ _ _

theorem at_congr (s t : vector_base N Types) (F : Fin N) (i j : Nat)
    (h : (s.m_soa F).data[i]? = (t.m_soa F).data[j]?) : s.«at» F i = t.«at» F j :=
  container.column_at_congr _ _ _ _ h

theorem value_at_eq_ok_iff (s : vector_base N Types) (i : Nat) (row : value_list Types) :
    s.value_at i = .ok row ↔ ∀ k, (s.m_soa k).data[i]? = some (row k) := by
  unfold value_at
  by_cases h : ∀ k, i < (s.m_soa k).data.length
  · rw [dif_pos h]
    constructor
    · intro e k
      injection e with e
      rw [← e, List.getElem?_eq_getElem (h k)]
      rfl
    · intro e
      congr 1
      funext k
      have := e k
      rw [List.getElem?_eq_getElem (h k)] at this
      exact Option.some.inj this
  · rw [dif_neg h]
    constructor
    · intro e; cases e
    · intro e
      exact absurd (fun k => (List.getElem?_eq_some_iff.1 (e k)).1) h

theorem value_at_eq_error_iff (s : vector_base N Types) (i : Nat) (e : Error) :
    s.value_at i = .error e ↔ e = Error.OutOfRange ∧ ∃ k, (s.m_soa k).size ≤ i := by
  unfold value_at
  by_cases h : ∀ k, i < (s.m_soa k).data.length
  · rw [dif_pos h]
    constructor
    · intro e; cases e
    · rintro ⟨_, k, hk⟩
      exact absurd (h k) (Nat.not_lt.2 hk)
  · rw [dif_neg h]
    push_neg at h
    constructor
    · intro e
      injection e with e
      exact ⟨e.symm, h⟩
    · rintro ⟨rfl, _⟩; rfl

theorem value_at_congr (s t : vector_base N Types) (i j : Nat)
    (h : ∀ k, (s.m_soa k).data[i]? = (t.m_soa k).data[j]?) : s.value_at i = t.value_at j := by
  cases ht : t.value_at j with
  | ok row =>
    rw [value_at_eq_ok_iff] at ht ⊢
    intro k; rw [h k, ht k]
  | error e =>
    rw [value_at_eq_error_iff] at ht ⊢
    obtain ⟨he, k, hk⟩ := ht
    refine ⟨he, k, ?_⟩
    simp only [container.size] at hk ⊢
    rw [← List.getElem?_eq_none_iff] at hk ⊢
    rw [h k, hk]

theorem data_foldl_push_back (rows : List (value_list Types)) (s : vector_base N Types)
    (k : Fin N) :
    ((rows.foldl push_back s).m_soa k).data = (s.m_soa k).data ++ rows.map fun row => row k := by
  induction rows generalizing s with
  | nil => simp
  | cons row rows ih =>
    rw [List.foldl_cons, ih]
    simp [push_back, push_back_internal, container.push_back]

/-- Claim C2: after the rows of a list are pushed with `push_back` onto an empty store, `size()`
is the number of rows and, for every `i` below it, `value_at(i)` is the `i`-th pushed row and
`at<Field>(i)` is that row's value for `Field`. -/
theorem push_back_rows [NeZero N] (rows : List (value_list Types)) :
    (rows.foldl push_back (mk_empty : vector_base N Types)).size = rows.length ∧
      ∀ (i : Nat) (h : i < rows.length),
        (rows.foldl push_back (mk_empty : vector_base N Types)).value_at i
            = .ok (rows.get ⟨i, h⟩) ∧
          ∀ Field : Fin N,
            (rows.foldl push_back (mk_empty : vector_base N Types)).«at» Field i
              = .ok (rows.get ⟨i, h⟩ Field) := by
  have hd : ∀ k : Fin N, ((rows.foldl push_back (mk_empty : vector_base N Types)).m_soa k).data
      = rows.map fun row => row k := fun k => by
    rw [data_foldl_push_back]; rfl
  refine ⟨?_, fun i h => ⟨?_, fun F => ?_⟩⟩
  · rw [size, container.size, hd, List.length_map]
  · rw [value_at_eq_ok_iff]
    intro k
    rw [hd k, List.getElem?_map, List.getElem?_eq_getElem h]
    rfl
  · rw [at_eq_ok_iff, hd F, List.getElem?_map, List.getElem?_eq_getElem h]
    rfl

end vector_base

/-- Witness for claim C2 on the two-field store: pushing `(1,"a")`, `(2,"b")`, `(3,"c")` gives
size 3 and each row back at its index. -/
theorem push_back_rows_witness :
    (example_rows.foldl vector_base.push_back vector_base.mk_empty).size = example_rows.length ∧
      ∀ (i : Nat) (h : i < example_rows.length),
        (example_rows.foldl vector_base.push_back vector_base.mk_empty).value_at i
            = .ok (example_rows.get ⟨i, h⟩) ∧
          ∀ Field : Fin 2,
            (example_rows.foldl vector_base.push_back vector_base.mk_empty).«at» Field i
              = .ok (example_rows.get ⟨i, h⟩ Field) :=
  vector_base.push_back_rows example_rows

namespace vector_base

variable {N : Nat} {Types : Fin N → Type}

/-- Claim C3: for `start ≤ end ≤ size`, `erase(start, end)` returns `start`, decreases the size
by `end - start`, leaves every row below `start` unchanged and moves the old row
`i + (end - start)` to every index `i ≥ start`; `erase(pos)` for `pos < size` is
`erase(pos, pos + 1)`, returns `pos` and decreases the size by 1. -/
theorem erase_spec [NeZero N] (s : vector_base N Types) (_startPos _endPos : Nat)
    (h1 : _startPos ≤ _endPos) (h2 : _endPos ≤ s.size) :
    (s.erase_range _startPos _endPos).1 = _startPos ∧
      (s.erase_range _startPos _endPos).2.size = s.size - (_endPos - _startPos) ∧
      (∀ i, i < _startPos →
        (s.erase_range _startPos _endPos).2.value_at i = s.value_at i ∧
          ∀ F, (s.erase_range _startPos _endPos).2.«at» F i = s.«at» F i) ∧
      (∀ i, _startPos ≤ i →
        (s.erase_range _startPos _endPos).2.value_at i
            = s.value_at (i + (_endPos - _startPos)) ∧
          ∀ F, (s.erase_range _startPos _endPos).2.«at» F i
            = s.«at» F (i + (_endPos - _startPos))) ∧
      ∀ _pos, _pos < s.size →
        s.erase _pos = s.erase_range _pos (_pos + 1) ∧
          (s.erase _pos).1 = _pos ∧ (s.erase _pos).2.size = s.size - 1 := by
  have hcol : ∀ (k : Fin N) (i : Nat),
      ((s.erase_range _startPos _endPos).2.m_soa k).data[i]? =
        if i < _startPos then (s.m_soa k).data[i]?
        else (s.m_soa k).data[i + (_endPos - _startPos)]? := fun k i =>
    container.getElem?_erase _ _ _ _ h1
  refine ⟨rfl, container.size_erase _ _ _ h1 h2, fun i hi => ⟨?_, fun F => ?_⟩,
    fun i hi => ⟨?_, fun F => ?_⟩, fun p hp => ⟨rfl, rfl, ?_⟩⟩
  · exact value_at_congr _ _ _ _ fun k => by rw [hcol k i, if_pos hi]
  · exact at_congr _ _ _ _ _ (by rw [hcol F i, if_pos hi])
  · exact value_at_congr _ _ _ _ fun k => by rw [hcol k i, if_neg (Nat.not_lt.2 hi)]
  · exact at_congr _ _ _ _ _ (by rw [hcol F i, if_neg (Nat.not_lt.2 hi)])
  · have := container.size_erase (s.m_soa 0) p (p + 1) (Nat.le_succ p) hp
    simpa using this

end vector_base

/-- Witness for claim C3: `erase(1, 2)` on the store of `(1,"a")`, `(2,"b")`, `(3,"c")`. -/
theorem erase_spec_witness :
    (1 ≤ 2 ∧ 2 ≤ example_store.size) ∧
      (example_store.erase_range 1 2).1 = 1 ∧
      (example_store.erase_range 1 2).2.size = example_store.size - (2 - 1) ∧
      (∀ i, i < 1 →
        (example_store.erase_range 1 2).2.value_at i = example_store.value_at i ∧
          ∀ F, (example_store.erase_range 1 2).2.«at» F i = example_store.«at» F i) ∧
      (∀ i, 1 ≤ i →
        (example_store.erase_range 1 2).2.value_at i = example_store.value_at (i + (2 - 1)) ∧
          ∀ F, (example_store.erase_range 1 2).2.«at» F i
            = example_store.«at» F (i + (2 - 1))) ∧
      ∀ _pos, _pos < example_store.size →
        example_store.erase _pos = example_store.erase_range _pos (_pos + 1) ∧
          (example_store.erase _pos).1 = _pos ∧
          (example_store.erase _pos).2.size = example_store.size - 1 :=
  ⟨⟨by decide, by decide⟩, vector_base.erase_spec example_store 1 2 (by decide) (by decide)⟩

namespace vector_base

variable {N : Nat} {Types : Fin N → Type}

/-- Claim C4: for `pos ≤ size`, `insert(pos, row)` increases the size by 1, puts `row` at index
`pos` in every column, leaves every row below `pos` unchanged and moves the old row `i - 1` to
every index `i > pos`. -/
theorem insert_spec [NeZero N] (s : vector_base N Types) (hs : s.synced) (_pos : Nat)
    (_args : value_list Types) (hp : _pos ≤ s.size) :
    (s.insert _pos _args).size = s.size + 1 ∧
      ((s.insert _pos _args).value_at _pos = .ok _args ∧
        ∀ F, (s.insert _pos _args).«at» F _pos = .ok (_args F)) ∧
      (∀ i, i < _pos →
        (s.insert _pos _args).value_at i = s.value_at i ∧
          ∀ F, (s.insert _pos _args).«at» F i = s.«at» F i) ∧
      ∀ i, _pos < i →
        (s.insert _pos _args).value_at i = s.value_at (i - 1) ∧
          ∀ F, (s.insert _pos _args).«at» F i = s.«at» F (i - 1) := by
  have hcol : ∀ (k : Fin N) (i : Nat),
      ((s.insert _pos _args).m_soa k).data[i]? =
        if i < _pos then (s.m_soa k).data[i]?
        else if i = _pos then some (_args k) else (s.m_soa k).data[i - 1]? := fun k i =>
    container.getElem?_insert _ _ _ _ (by rw [hs k]; exact hp)
  refine ⟨container.size_insert _ _ _ hp, ⟨?_, fun F => ?_⟩, fun i hi => ⟨?_, fun F => ?_⟩,
    fun i hi => ⟨?_, fun F => ?_⟩⟩
  · exact (value_at_eq_ok_iff _ _ _).2 fun k => by
      rw [hcol k _pos, if_neg (Nat.lt_irrefl _), if_pos rfl]
  · exact (at_eq_ok_iff _ _ _ _).2 (by rw [hcol F _pos, if_neg (Nat.lt_irrefl _), if_pos rfl])
  · exact value_at_congr _ _ _ _ fun k => by rw [hcol k i, if_pos hi]
  · exact at_congr _ _ _ _ _ (by rw [hcol F i, if_pos hi])
  · exact value_at_congr _ _ _ _ fun k => by
      rw [hcol k i, if_neg (Nat.lt_asymm hi), if_neg (Nat.ne_of_gt hi)]
  · exact at_congr _ _ _ _ _ (by
      rw [hcol F i, if_neg (Nat.lt_asymm hi), if_neg (Nat.ne_of_gt hi)])

end vector_base

theorem example_store_synced : example_store.synced := by
  unfold vector_base.synced
  decide

/-- Witness for claim C4: `insert(1, (7,"x"))` on the store of `(1,"a")`, `(2,"b")`,
`(3,"c")`. -/
theorem insert_spec_witness :
    (example_store.synced ∧ 1 ≤ example_store.size) ∧
      (example_store.insert 1 (example_row 7 "x")).size = example_store.size + 1 ∧
      ((example_store.insert 1 (example_row 7 "x")).value_at 1 = .ok (example_row 7 "x") ∧
        ∀ F, (example_store.insert 1 (example_row 7 "x")).«at» F 1
          = .ok (example_row 7 "x" F)) ∧
      (∀ i, i < 1 →
        (example_store.insert 1 (example_row 7 "x")).value_at i = example_store.value_at i ∧
          ∀ F, (example_store.insert 1 (example_row 7 "x")).«at» F i
            = example_store.«at» F i) ∧
      ∀ i, 1 < i →
        (example_store.insert 1 (example_row 7 "x")).value_at i
            = example_store.value_at (i - 1) ∧
          ∀ F, (example_store.insert 1 (example_row 7 "x")).«at» F i
            = example_store.«at» F (i - 1) :=
  ⟨⟨example_store_synced, by decide⟩,
    vector_base.insert_spec example_store example_store_synced 1 (example_row 7 "x")
      (by decide)⟩

namespace vector_base

variable {N : Nat} {Types : Fin N → Type}

theorem resize_eq_resize_fill [∀ k, Inhabited (Types k)] (s : vector_base N Types)
    (_size : Nat) : s.resize _size = s.resize_fill _size fun _ => default := rfl

end vector_base

namespace vector_base

variable {N : Nat} {Types : Fin N → Type}

/-- Claim C6: on a store whose columns have equal length, `at<F>(i)` raises exactly when
`i >= size()`, the error is `OutOfRange`, and for `i < size()` it returns the element at
index `i` of column `F`; the mutable overload passes the same bounds check. -/
theorem at_spec [NeZero N] (s : vector_base N Types) (hs : s.synced) (F : Fin N) (i : Nat) :
    ((∃ e, s.«at» F i = .error e) ↔ s.size ≤ i) ∧
      (s.«at» F i = .error Error.OutOfRange ↔ s.size ≤ i) ∧
      (∀ h : i < (s.m_soa F).data.length, s.«at» F i = .ok ((s.m_soa F).data.get ⟨i, h⟩)) ∧
      (i < s.size → ∃ v, (s.m_soa F).data[i]? = some v ∧ s.«at» F i = .ok v) ∧
      (s.at_ref F i = .error Error.OutOfRange ↔ s.size ≤ i) ∧
      (i < s.size → s.at_ref F i = .ok ⟨i⟩) := by
  have hF : (s.m_soa F).data.length = s.size := hs F
  have herr : ∀ e, s.«at» F i = .error e ↔ e = Error.OutOfRange ∧ s.size ≤ i := fun e => by
    rw [← hs F]
    exact container.column_at_eq_error_iff _ _ _
  refine ⟨⟨?_, fun h => ⟨_, (herr _).2 ⟨rfl, h⟩⟩⟩, ?_, fun h => ?_, fun h => ?_, ?_, fun h => ?_⟩
  · rintro ⟨e, he⟩
    exact ((herr e).1 he).2
  · rw [herr]
    exact ⟨fun h => h.2, fun h => ⟨rfl, h⟩⟩
  · simp only [vector_base.«at», container.«at», dif_pos h]
  · have h2 : i < (s.m_soa F).data.length := by rw [hF]; exact h
    exact ⟨_, List.getElem?_eq_getElem h2, by
      simp only [vector_base.«at», container.«at», dif_pos h2]; rfl⟩
  · simp only [at_ref, container.size, hF]
    split_ifs with h
    · simp [Nat.not_le.2 h]
    · simp [Nat.le_of_not_lt h]
  · simp only [at_ref, container.size, hF, if_pos h]

end vector_base

/-- Witness for claim C6: field 1 of the store of `(1,"a")`, `(2,"b")`, `(3,"c")`, read at index 3
(rejected) and at index 2 (the string `"c"`). -/
theorem at_spec_witness :
    example_store.synced ∧
      example_store.«at» 1 3 = .error Error.OutOfRange ∧
      example_store.«at» 1 2 = .ok "c" ∧
      example_store.at_ref 1 2 = .ok ⟨2⟩ :=
  ⟨example_store_synced,
    (vector_base.at_spec example_store example_store_synced 1 3).2.1.2 (by decide),
    (vector_base.at_spec example_store example_store_synced 1 2).2.2.1 (by decide),
    (vector_base.at_spec example_store example_store_synced 1 2).2.2.2.2.2 (by decide)⟩

namespace vector_base

variable {N : Nat} {Types : Fin N → Type}

theorem ext_m_soa (s t : vector_base N Types) (h : ∀ k, s.m_soa k = t.m_soa k) : s = t := by
  cases s; cases t
  congr 1
  funext k
  exact h k

/-- Claim C9: on a store whose columns have equal length, `insert(size(), row)` and
`push_back(row)` produce the same store: the same size and the same field values at every
index. -/
theorem insert_at_size_eq_push_back [NeZero N] (s : vector_base N Types) (hs : s.synced)
    (_args : value_list Types) :
    s.insert s.size _args = s.push_back _args ∧
      (s.insert s.size _args).size = (s.push_back _args).size ∧
      ∀ i, (s.insert s.size _args).value_at i = (s.push_back _args).value_at i ∧
        ∀ F, (s.insert s.size _args).«at» F i = (s.push_back _args).«at» F i := by
  have h : s.insert s.size _args = s.push_back _args := by
    apply ext_m_soa
    intro k
    have hk : (s.m_soa k).data.length = s.size := hs k
    simp only [vector_base.insert, insert_internal, vector_base.push_back, push_back_internal,
      container.insert, container.push_back, ← hk, List.take_length, List.drop_length]
  rw [h]
  exact ⟨rfl, rfl, fun i => ⟨rfl, fun F => rfl⟩⟩

/-- Claim C10: on a non-empty store whose columns have equal length, `pop_back()` removes the
last element of every column: the size decreases by 1 and every row below the new size is
unchanged. -/
theorem pop_back_spec [NeZero N] (s : vector_base N Types) (hs : s.synced)
    (hne : 0 < s.size) :
    (s.pop_back.size = s.size - 1 ∧ s.pop_back.size + 1 = s.size) ∧
      (∀ k, (s.pop_back.m_soa k).data = (s.m_soa k).data.dropLast ∧
        (s.pop_back.m_soa k).size = (s.m_soa k).size - 1) ∧
      (∀ i, i < s.size - 1 →
        s.pop_back.value_at i = s.value_at i ∧ ∀ F, s.pop_back.«at» F i = s.«at» F i) ∧
      ∀ F, s.pop_back.«at» F (s.size - 1) = .error Error.OutOfRange := by
  have hcol : ∀ (k : Fin N) (i : Nat),
      (s.pop_back.m_soa k).data[i]? = if i < s.size - 1 then (s.m_soa k).data[i]? else none :=
    fun k i => by
      rw [← hs k]
      exact container.getElem?_pop_back _ _
  have hsz : s.pop_back.size = s.size - 1 := container.size_pop_back _
  refine ⟨⟨hsz, by omega⟩, fun k => ⟨rfl, container.size_pop_back _⟩,
    fun i hi => ⟨value_at_congr _ _ _ _ fun k => by rw [hcol k i, if_pos hi],
      fun F => at_congr _ _ _ _ _ (by rw [hcol F i, if_pos hi])⟩, fun F => ?_⟩
  refine (container.column_at_eq_error_iff _ _ _).2 ⟨rfl, ?_⟩
  have := container.size_pop_back (s.m_soa F)
  rw [hs F] at this
  exact Nat.le_of_eq this

end vector_base

/-- Witness for claim C9: `insert(size(), (7,"x"))` and `push_back((7,"x"))` on the store of
`(1,"a")`, `(2,"b")`, `(3,"c")`. -/
theorem insert_at_size_eq_push_back_witness :
    example_store.synced ∧
      example_store.insert example_store.size (example_row 7 "x")
        = example_store.push_back (example_row 7 "x") ∧
      (example_store.insert 3 (example_row 7 "x")).value_at 3 = .ok (example_row 7 "x") :=
  ⟨example_store_synced,
    (vector_base.insert_at_size_eq_push_back example_store example_store_synced
      (example_row 7 "x")).1,
    rfl⟩

/-- Witness for claim C10: `pop_back()` on the store of `(1,"a")`, `(2,"b")`, `(3,"c")`. -/
theorem pop_back_spec_witness :
    (example_store.synced ∧ 0 < example_store.size) ∧
      example_store.pop_back.size = example_store.size - 1 ∧
      example_store.pop_back.value_at 1 = example_store.value_at 1 :=
  have h := vector_base.pop_back_spec example_store example_store_synced (by decide)
  ⟨⟨example_store_synced, by decide⟩, h.1.1, (h.2.2.1 1 (by decide)).1⟩

namespace vector_base

variable {N : Nat} {Types : Fin N → Type}

theorem load_all_eq_some_iff (s : vector_base N Types) (r : reference_list N)
    (row : value_list Types) :
    s.load_all r = some row ↔ ∀ k, (s.m_soa k).data[(r k).index]? = some (row k) := by
  unfold load_all
  by_cases h : ∀ k, (r k).index < (s.m_soa k).data.length
  · rw [dif_pos h]
    constructor
    · intro e k
      injection e with e
      rw [← e, List.getElem?_eq_getElem (h k)]
      rfl
    · intro e
      congr 1
      funext k
      have := e k
      rw [List.getElem?_eq_getElem (h k)] at this
      exact Option.some.inj this
  · rw [dif_neg h]
    constructor
    · intro e; cases e
    · intro e
      exact absurd (fun k => (List.getElem?_eq_some_iff.1 (e k)).1) h

theorem getElem?_store_of_ne (s : vector_base N Types) (F : Fin N) (r : ref) (x : Types F)
    (k : Fin N) (j : Nat) (h : j ≠ r.index) :
    ((s.store F r x).m_soa k).data[j]? = (s.m_soa k).data[j]? := by
  by_cases hk : k = F
  · subst hk
    simp only [store, Function.update_same, container.assign]
    exact List.getElem?_set_ne (Ne.symm h)
  · simp only [store, Function.update_noteq hk]

theorem getElem?_store_self (s : vector_base N Types) (F : Fin N) (r : ref) (x : Types F)
    (h : r.index < (s.m_soa F).size) :
    ((s.store F r x).m_soa F).data[r.index]? = some x := by
  simp only [store, Function.update_same, container.assign]
  rw [List.getElem?_set_self]
  simp only [container.size] at h
  simp [h]

end vector_base

namespace vector_base

variable {N : Nat} {Types : Fin N → Type}

theorem run_columns_spec (fails : (I : Fin N) → container (Types I) → Option Error)
    (grow : (I : Fin N) → container (Types I) → container (Types I)) (l : List (Fin N))
    (hl : l.Nodup) (s : vector_base N Types) :
    (∃ l1 I l2 e, l = l1 ++ I :: l2 ∧ (∀ k ∈ l1, fails k (s.m_soa k) = none) ∧
        fails I (s.m_soa I) = some e ∧
        run_columns fails grow l s
          = (some e, ⟨fun k => if k ∈ l1 then grow k (s.m_soa k) else s.m_soa k⟩)) ∨
      ((∀ k ∈ l, fails k (s.m_soa k) = none) ∧
        run_columns fails grow l s
          = (none, ⟨fun k => if k ∈ l then grow k (s.m_soa k) else s.m_soa k⟩)) := by
  induction l generalizing s with
  | nil =>
    right
    exact ⟨fun k hk => absurd hk (List.not_mem_nil k), by simp [run_columns]⟩
  | cons I todo ih =>
    obtain ⟨hI, htodo⟩ := List.nodup_cons.1 hl
    cases hf : fails I (s.m_soa I) with
    | some e =>
      left
      exact ⟨[], I, todo, e, rfl, fun k hk => absurd hk (List.not_mem_nil k), hf, by
        simp [run_columns, hf]⟩
    | none =>
      have hstep : run_columns fails grow (I :: todo) s
          = run_columns fails grow todo ⟨Function.update s.m_soa I (grow I (s.m_soa I))⟩ := by
        simp only [run_columns, hf]
      have hsame : ∀ k, k ≠ I →
          Function.update s.m_soa I (grow I (s.m_soa I)) k = s.m_soa k := fun k hk =>
        Function.update_noteq hk _ _
      have hmem : ∀ k ∈ todo, k ≠ I := fun k hk e => hI (e ▸ hk)
      rcases ih htodo ⟨Function.update s.m_soa I (grow I (s.m_soa I))⟩ with
        ⟨l1, J, l2, e, hsplit, hnone, hJ, hrun⟩ | ⟨hnone, hrun⟩
      · left
        have hl1 : ∀ k ∈ l1, k ≠ I := fun k hk =>
          hmem k (by rw [hsplit]; exact List.mem_append_left _ hk)
        have hJI : J ≠ I := hmem J (by rw [hsplit]; simp)
        refine ⟨I :: l1, J, l2, e, by rw [hsplit]; rfl, ?_, ?_, ?_⟩
        · intro k hk
          rcases List.mem_cons.1 hk with rfl | hk
          · exact hf
          · have := hnone k hk
            simp only [hsame k (hl1 k hk)] at this
            exact this
        · simp only [hsame J hJI] at hJ
          exact hJ
        · rw [hstep, hrun]
          congr 2
          funext k
          by_cases hk : k = I
          · subst hk
            have : k ∉ l1 := fun h => hl1 k h rfl
            simp [this]
          · simp only [hsame k hk, List.mem_cons, hk, false_or]
      · right
        refine ⟨?_, ?_⟩
        · intro k hk
          rcases List.mem_cons.1 hk with rfl | hk
          · exact hf
          · have := hnone k hk
            simp only [hsame k (hmem k hk)] at this
            exact this
        · rw [hstep, hrun]
          congr 2
          funext k
          by_cases hk : k = I
          · subst hk
            simp [hI]
          · simp only [hsame k hk, List.mem_cons, hk, false_or]

theorem mem_left_of_finRange_split (l1 l2 : List (Fin N)) (I k : Fin N)
    (h : List.finRange N = l1 ++ I :: l2) : k ∈ l1 ↔ k < I := by
  have hs : (l1 ++ I :: l2).Pairwise (· < ·) := h ▸ List.pairwise_lt_finRange N
  rw [List.pairwise_append] at hs
  obtain ⟨_, h2, h3⟩ := hs
  constructor
  · intro hk
    exact h3 k hk I (List.mem_cons_self _ _)
  · intro hk
    have hmem : k ∈ l1 ++ I :: l2 := h ▸ List.mem_finRange k
    rcases List.mem_append.1 hmem with h | h
    · exact h
    · rcases List.mem_cons.1 h with rfl | h
      · exact absurd hk (lt_irrefl _)
      · exact absurd hk (lt_asymm ((List.pairwise_cons.1 h2).1 k h))

theorem run_columns_finRange (fails : (I : Fin N) → container (Types I) → Option Error)
    (grow : (I : Fin N) → container (Types I) → container (Types I))
    (s : vector_base N Types) :
    (∃ I e, (∀ k, k < I → fails k (s.m_soa k) = none) ∧ fails I (s.m_soa I) = some e ∧
        run_columns fails grow (List.finRange N) s
          = (some e, ⟨fun k => if k < I then grow k (s.m_soa k) else s.m_soa k⟩)) ∨
      ((∀ k, fails k (s.m_soa k) = none) ∧
        run_columns fails grow (List.finRange N) s = (none, ⟨fun k => grow k (s.m_soa k)⟩)) := by
  rcases run_columns_spec fails grow (List.finRange N) (List.nodup_finRange N) s with
    ⟨l1, I, l2, e, hsplit, hnone, hI, hrun⟩ | ⟨hnone, hrun⟩
  · left
    have hiff := fun k => mem_left_of_finRange_split l1 l2 I k hsplit
    refine ⟨I, e, fun k hk => hnone k ((hiff k).2 hk), hI, ?_⟩
    rw [hrun]
    congr 2
    funext k
    simp only [hiff k]
  · right
    refine ⟨fun k => hnone k (List.mem_finRange k), ?_⟩
    rw [hrun]
    congr 2
    funext k
    simp only [List.mem_finRange, if_true]

end vector_base

namespace vector_base

variable {N : Nat} {Types : Fin N → Type}

theorem stops_at_first_raise_of_run [NeZero N] (raises : Fin N → Option Error)
    (fails : (I : Fin N) → container (Types I) → Option Error)
    (grow : (I : Fin N) → container (Types I) → container (Types I))
    (s : vector_base N Types) (hs : s.synced) (hf : ∀ k, fails k (s.m_soa k) = raises k)
    (hgrow : (grow 0 (s.m_soa 0)).size ≠ s.size) :
    stops_at_first_raise raises s ⟨fun k => grow k (s.m_soa k)⟩
      (run_columns fails grow (List.finRange N) s) := by
  rcases run_columns_finRange fails grow s with ⟨I, e, hnone, hI, hrun⟩ | ⟨hnone, hrun⟩
  · rw [hrun]
    refine ⟨⟨fun h => (by cases h), fun h => ?_⟩, fun h => (by cases h), fun e2 he => ?_⟩
    · have := hf I ▸ hI
      rw [h I] at this
      cases this
    · have he : e = e2 := Option.some.inj he
      subst he
      refine ⟨I, hf I ▸ hI, fun k hk => ⟨hf k ▸ hnone k hk, ?_⟩, fun k hk => ?_, ?_, ?_⟩
      · show (if k < I then grow k (s.m_soa k) else s.m_soa k) = grow k (s.m_soa k)
        rw [if_pos hk]
      · show (if k < I then grow k (s.m_soa k) else s.m_soa k) = s.m_soa k
        rw [if_neg (not_lt.2 hk)]
      · intro hall
        by_contra hne
        have hpos : (0 : Fin N) < I := (Fin.pos_iff_ne_zero' I).2 hne
        have h0 := hall 0
        have : (if (0 : Fin N) < I then grow 0 (s.m_soa 0) else s.m_soa 0)
            = grow 0 (s.m_soa 0) := if_pos hpos
        exact hgrow (by rw [← this]; exact h0)
      · intro hI0 k
        subst hI0
        show (if k < 0 then grow k (s.m_soa k) else s.m_soa k).size = s.size
        rw [if_neg (not_lt.2 (Fin.zero_le' k))]
        exact hs k
  · rw [hrun]
    refine ⟨⟨fun _ k => hf k ▸ hnone k, fun _ => rfl⟩, fun _ => rfl, fun e he => by cases he⟩

end vector_base

namespace vector_base

variable {N : Nat} {Types : Fin N → Type}

/-- Claim C7, as the code behaves: on a store whose columns have equal length, a `push_back`,
an `insert` (with `pos ≤ size`) or a growing `resize` (with `size < n`) in which growing a
column raises does fail visibly, with the error of the first raising column `I`, but nothing
is rolled back: the columns before `I` stay grown as in a call without an error, column `I`
and the later columns are unchanged, and all columns keep the old length exactly when `I` is
column 0.  When no column raises, the call produces the store of the call without an error. -/
theorem raising_call_stops_at_first_raise [NeZero N] (raises : Fin N → Option Error)
    (s : vector_base N Types) (hs : s.synced) (_args : value_list Types) (_pos : Nat)
    (hp : _pos ≤ s.size) (_size : Nat) (hn : s.size < _size) :
    stops_at_first_raise raises s (s.push_back _args) (s.push_back_raising raises _args) ∧
      stops_at_first_raise raises s (s.insert _pos _args)
        (s.insert_raising raises _pos _args) ∧
      stops_at_first_raise raises s (s.resize_fill _size _args)
        (s.resize_raising raises _size _args) := by
  refine ⟨?_, ?_, ?_⟩
  · refine stops_at_first_raise_of_run raises _ _ s hs (fun _ => rfl) ?_
    rw [container.size_push_back]
    exact Nat.succ_ne_self _
  · refine stops_at_first_raise_of_run raises _ _ s hs (fun _ => rfl) ?_
    rw [container.size_insert _ _ _ hp]
    exact Nat.succ_ne_self _
  · refine stops_at_first_raise_of_run raises _ _ s hs (fun k => ?_) ?_
    · show (if (s.m_soa k).size < _size then raises k else none) = raises k
      rw [hs k, if_pos hn]
    · rw [container.size_resize]
      exact Nat.ne_of_gt hn

end vector_base

/-- Counterexample to claim C7 as stated: on the store of `(1,"a")`, `(2,"b")`, `(3,"c")`, whose
two columns have length 3, a `push_back`, an `insert` at 0 and a `resize` to 5 in which growing
column 1 raises all fail, and leave column 0 grown and column 1 at length 3. -/
theorem raising_call_counterexample :
    (∀ k, (example_store.m_soa k).data.length = 3) ∧
      ((example_store.push_back_raising raises_in_column_one (example_row 4 "d")).1
          = some Error.AllocationFailure ∧
        ((example_store.push_back_raising raises_in_column_one
          (example_row 4 "d")).2.m_soa 0).data.length = 4 ∧
        ((example_store.push_back_raising raises_in_column_one
          (example_row 4 "d")).2.m_soa 1).data.length = 3) ∧
      ((example_store.insert_raising raises_in_column_one 0 (example_row 4 "d")).1
          = some Error.AllocationFailure ∧
        ((example_store.insert_raising raises_in_column_one 0
          (example_row 4 "d")).2.m_soa 0).data.length = 4 ∧
        ((example_store.insert_raising raises_in_column_one 0
          (example_row 4 "d")).2.m_soa 1).data.length = 3) ∧
      ((example_store.resize_raising raises_in_column_one 5 (example_row 4 "d")).1
          = some Error.AllocationFailure ∧
        ((example_store.resize_raising raises_in_column_one 5
          (example_row 4 "d")).2.m_soa 0).data.length = 5 ∧
        ((example_store.resize_raising raises_in_column_one 5
          (example_row 4 "d")).2.m_soa 1).data.length = 3) ∧
      ¬ ∀ j k,
        ((example_store.push_back_raising raises_in_column_one
            (example_row 4 "d")).2.m_soa j).data.length =
          ((example_store.push_back_raising raises_in_column_one
            (example_row 4 "d")).2.m_soa k).data.length := by
  refine ⟨by decide, ⟨rfl, rfl, rfl⟩, ⟨rfl, rfl, rfl⟩, ⟨rfl, rfl, rfl⟩, fun h => ?_⟩
  exact absurd (h 0 1) (by decide)

/-- Witness for claim C7 as the code behaves, on the store of `(1,"a")`, `(2,"b")`, `(3,"c")`:
with column 1 raising the three calls stop at column 1, and with column 0 raising they stop at
column 0. -/
theorem raising_call_stops_at_first_raise_witness :
    (example_store.synced ∧ 0 ≤ example_store.size ∧ example_store.size < 5) ∧
      (vector_base.stops_at_first_raise raises_in_column_one example_store
          (example_store.push_back (example_row 4 "d"))
          (example_store.push_back_raising raises_in_column_one (example_row 4 "d")) ∧
        vector_base.stops_at_first_raise raises_in_column_one example_store
          (example_store.insert 0 (example_row 4 "d"))
          (example_store.insert_raising raises_in_column_one 0 (example_row 4 "d")) ∧
        vector_base.stops_at_first_raise raises_in_column_one example_store
          (example_store.resize_fill 5 (example_row 4 "d"))
          (example_store.resize_raising raises_in_column_one 5 (example_row 4 "d"))) ∧
      vector_base.stops_at_first_raise raises_in_column_zero example_store
        (example_store.push_back (example_row 4 "d"))
        (example_store.push_back_raising raises_in_column_zero (example_row 4 "d")) :=
  ⟨⟨example_store_synced, by decide, by decide⟩,
    vector_base.raising_call_stops_at_first_raise raises_in_column_one example_store
      example_store_synced (example_row 4 "d") 0 (by decide) 5 (by decide),
    (vector_base.raising_call_stops_at_first_raise raises_in_column_zero example_store
      example_store_synced (example_row 4 "d") 0 (by decide) 5 (by decide)).1⟩

/-! ## Capacity: `reserve` and `clear` -/

namespace vector_base

variable {N : Nat} {Types : Fin N → Type}

/-- Claim C12: `clear()` sets the length of every column to 0, so that `size()` is 0 and
`empty()` holds, and keeps the capacity: `capacity()`, as the capacity of every column, is what
it was before. -/
theorem clear_spec [NeZero N] (s : vector_base N Types) :
    (∀ k, (s.clear.m_soa k).size = 0) ∧
      s.clear.size = 0 ∧
      s.clear.empty = true ∧
      s.clear.capacity = s.capacity ∧
      ∀ k, (s.clear.m_soa k).capacity = (s.m_soa k).capacity :=
  ⟨fun _ => rfl, rfl, rfl, rfl, fun _ => rfl⟩

end vector_base

/-- Witness for claim C12: `clear()` on the store of `(1,"a")`, `(2,"b")`, `(3,"c")`, whose
capacity is 4. -/
theorem clear_spec_witness :
    example_store.capacity = 4 ∧
      example_store.clear.size = 0 ∧
      example_store.clear.empty = true ∧
      example_store.clear.capacity = example_store.capacity :=
  have h := vector_base.clear_spec example_store
  ⟨by decide, h.2.1, h.2.2.1, h.2.2.2.1⟩

/-! ## Whole rows: `value_at`, `ref_at`, `front`, `back` and the dispatch -/

namespace vector_base

variable {N : Nat} {Types : Fin N → Type}

/-- Claim C13: on a store whose columns have equal length, for `i < size` the calls
`value_at(i)` and `ref_at(i)` return the full-row tuple whose component `k` is what `at<k>(i)`
returns, for every field `k`; for `i >= size` both raise `OutOfRange`. -/
theorem value_at_ref_at_spec [NeZero N] (s : vector_base N Types) (hs : s.synced) (i : Nat) :
    (i < s.size →
      ∃ (v : value_list Types) (r : reference_list N),
        s.value_at i = .ok v ∧ s.ref_at i = .ok r ∧
        (∀ k, s.«at» k i = .ok (v k)) ∧
        (∀ k, s.at_ref k i = .ok (r k)) ∧
        ∀ k, s.load k (r k) = some (v k)) ∧
      (s.size ≤ i →
        s.value_at i = .error Error.OutOfRange ∧ s.ref_at i = .error Error.OutOfRange) := by
  constructor
  · intro hi
    have hlen : ∀ k, i < (s.m_soa k).data.length := fun k => by
      have := hs k
      simp only [container.size] at this
      rw [this]; exact hi
    have hrow : ∀ k, (s.m_soa k).data[i]? = some ((s.m_soa k).data.get ⟨i, hlen k⟩) :=
      fun k => List.getElem?_eq_getElem (hlen k)
    refine ⟨fun k => (s.m_soa k).data.get ⟨i, hlen k⟩, fun _ => ⟨i⟩, ?_, ?_, ?_, ?_, ?_⟩
    · simp only [value_at, dif_pos hlen]
    · simp only [ref_at, at_internal, container.size, if_pos hlen]
    · exact fun k => (at_eq_ok_iff _ _ _ _).2 (hrow k)
    · intro k
      simp only [at_ref, container.size, if_pos (hlen k)]
    · intro k
      simp only [load, List.get?_eq_getElem?]
      exact hrow k
  · intro hi
    have h0 : ¬ ∀ k, i < (s.m_soa k).data.length := fun h =>
      absurd (h 0) (Nat.not_lt.2 hi)
    constructor
    · simp only [value_at, dif_neg h0]
    · simp only [ref_at, at_internal, container.size, if_neg h0]

theorem push_back_args_positional (s : vector_base N Types) (v : value_list Types) :
    s.push_back_args (.positional v) = some (s.push_back v) := by
  simp only [push_back_args, Args.count, Args.is_row_tuple, Args.forward_as_tuple,
    Option.map_some', vector_base.push_back]
  split_ifs with h1 h2
  · exact absurd h2 (by simp)
  · rfl
  · rfl

theorem resize_args_positional (s : vector_base N Types) (_size : Nat)
    (v : value_list Types) :
    s.resize_args _size (.positional v) = some (s.resize_fill _size v) := by
  simp only [resize_args, Args.count, Args.is_row_tuple, Args.forward_as_tuple,
    Option.map_some', vector_base.resize_fill]
  split_ifs with h1 h2
  · exact absurd h2 (by simp)
  · rfl
  · rfl

theorem insert_args_positional (s : vector_base N Types) (_pos : Nat)
    (v : value_list Types) :
    s.insert_args _pos (.positional v) = some (s.insert _pos v) := by
  simp only [insert_args, Args.count, Args.is_row_tuple, Args.forward_as_tuple,
    Option.map_some', vector_base.insert]
  split_ifs with h1 h2
  · exact absurd h2 (by simp)
  · rfl
  · rfl

/-- Claim C14: `push_back` called with the single full-row tuple `(v0, .., v(N-1))`, as a value
tuple, a reference tuple or a const reference tuple, produces the store that `push_back` called
with the `N` positional arguments `v0, .., v(N-1)` produces, with component `k` appended to
column `k`; the same holds for `insert` and `resize`. -/
theorem tuple_dispatch_eq_positional (s : vector_base N Types) (v : value_list Types)
    (_pos _size : Nat) :
    (s.push_back_args (.positional v) = some (s.push_back v) ∧
      s.push_back_args (.value_tuple v) = s.push_back_args (.positional v) ∧
      (∀ r, s.load_all r = some v →
        s.push_back_args (.reference_tuple r) = s.push_back_args (.positional v) ∧
        s.push_back_args (.const_reference_tuple r) = s.push_back_args (.positional v)) ∧
      ∀ k, ((s.push_back v).m_soa k).data = (s.m_soa k).data ++ [v k]) ∧
    (s.insert_args _pos (.positional v) = some (s.insert _pos v) ∧
      s.insert_args _pos (.value_tuple v) = s.insert_args _pos (.positional v) ∧
      (∀ r, s.load_all r = some v →
        s.insert_args _pos (.reference_tuple r) = s.insert_args _pos (.positional v) ∧
        s.insert_args _pos (.const_reference_tuple r)
          = s.insert_args _pos (.positional v)) ∧
      ∀ k, ((s.insert _pos v).m_soa k).data
        = (s.m_soa k).data.take _pos ++ v k :: (s.m_soa k).data.drop _pos) ∧
    (s.resize_args _size (.positional v) = some (s.resize_fill _size v) ∧
      s.resize_args _size (.value_tuple v) = s.resize_args _size (.positional v) ∧
      (∀ r, s.load_all r = some v →
        s.resize_args _size (.reference_tuple r) = s.resize_args _size (.positional v) ∧
        s.resize_args _size (.const_reference_tuple r)
          = s.resize_args _size (.positional v)) ∧
      ∀ k, ((s.resize_fill _size v).m_soa k).data
        = (s.m_soa k).data.take _size
          ++ List.replicate (_size - (s.m_soa k).data.length) (v k)) := by
  refine ⟨⟨push_back_args_positional s v, ?_, fun r hr => ⟨?_, ?_⟩, fun _ => rfl⟩,
    ⟨insert_args_positional s _pos v, ?_, fun r hr => ⟨?_, ?_⟩, fun _ => rfl⟩,
    ⟨resize_args_positional s _size v, ?_, fun r hr => ⟨?_, ?_⟩, fun _ => rfl⟩⟩
  · rw [push_back_args_positional]; rfl
  · rw [push_back_args_positional]
    simp only [push_back_args, Args.count, Args.is_row_tuple, Args.unpack, hr, if_true]
    rfl
  · rw [push_back_args_positional]
    simp only [push_back_args, Args.count, Args.is_row_tuple, Args.unpack, hr, if_true]
    rfl
  · rw [insert_args_positional]; rfl
  · rw [insert_args_positional]
    simp only [insert_args, Args.count, Args.is_row_tuple, Args.unpack, hr, if_true]
    rfl
  · rw [insert_args_positional]
    simp only [insert_args, Args.count, Args.is_row_tuple, Args.unpack, hr, if_true]
    rfl
  · rw [resize_args_positional]; rfl
  · rw [resize_args_positional]
    simp only [resize_args, Args.count, Args.is_row_tuple, Args.unpack, hr, if_true]
    rfl
  · rw [resize_args_positional]
    simp only [resize_args, Args.count, Args.is_row_tuple, Args.unpack, hr, if_true]
    rfl

end vector_base

/-- Witness for claim C13: rows 1 and 3 of the store of `(1,"a")`, `(2,"b")`, `(3,"c")`. -/
theorem value_at_ref_at_spec_witness :
    example_store.synced ∧
      (∃ (v : value_list ExampleTypes) (r : reference_list 2),
        example_store.value_at 1 = .ok v ∧ example_store.ref_at 1 = .ok r ∧
        (∀ k, example_store.«at» k 1 = .ok (v k)) ∧
        (∀ k, example_store.at_ref k 1 = .ok (r k)) ∧
        ∀ k, example_store.load k (r k) = some (v k)) ∧
      example_store.value_at 3 = .error Error.OutOfRange ∧
      example_store.ref_at 3 = .error Error.OutOfRange :=
  ⟨example_store_synced,
    (vector_base.value_at_ref_at_spec example_store example_store_synced 1).1 (by decide),
    (vector_base.value_at_ref_at_spec example_store example_store_synced 3).2 (by decide)⟩

/-- Witness for claim C14: row 0 of the store of `(1,"a")`, `(2,"b")`, `(3,"c")`, pushed as a
reference tuple, and `(7,"x")` pushed as a value tuple, against the positional calls. -/
theorem tuple_dispatch_eq_positional_witness :
    example_store.load_all (fun _ => ⟨0⟩) = some (example_row 1 "a") ∧
      example_store.push_back_args (.reference_tuple fun _ => ⟨0⟩)
        = example_store.push_back_args (.positional (example_row 1 "a")) ∧
      example_store.push_back_args (.value_tuple (example_row 7 "x"))
        = example_store.push_back_args (.positional (example_row 7 "x")) ∧
      example_store.push_back_args (.positional (example_row 7 "x"))
        = some (example_store.push_back (example_row 7 "x")) :=
  have h := vector_base.tuple_dispatch_eq_positional example_store (example_row 1 "a") 0 0
  have h2 := vector_base.tuple_dispatch_eq_positional example_store (example_row 7 "x") 0 0
  ⟨rfl, (h.1.2.2.1 (fun _ => ⟨0⟩) rfl).1, h2.1.2.1, h2.1.1⟩

namespace vector_base

variable {N : Nat} {Types : Fin N → Type}

theorem size_t_sub_one (w n : Nat) (h0 : 0 < n) (hw : n < 2 ^ w) :
    size_t_sub w n 1 = n - 1 := by
  unfold size_t_sub
  have h1 : 1 % 2 ^ w = 1 := Nat.mod_eq_of_lt (by omega)
  rw [h1]
  have h2 : n + (2 ^ w - 1) = (n - 1) + 2 ^ w := by omega
  rw [h2, Nat.add_mod_right, Nat.mod_eq_of_lt (by omega)]

/-- Claim C19: on a non-empty store whose columns have equal length (and whose size fits
`size_t`), `front()` is `ref_at(0)` and `back()` is `ref_at(size() - 1)`: they are the tuples of
the references that `at<Field>` returns at index 0 and at index `size() - 1`, and a write
through a component of either is read back by `at<Field>` at that index. -/
theorem front_back_spec [NeZero N] (w : Nat) (s : vector_base N Types) (hs : s.synced)
    (h0 : 0 < s.size) (hw : s.size < 2 ^ w) :
    s.front = s.ref_at 0 ∧ back w s = s.ref_at (s.size - 1) ∧
      ∃ (f b : reference_list N),
        s.front = .ok f ∧ back w s = .ok b ∧
        (∀ F, s.at_ref F 0 = .ok (f F)) ∧
        (∀ F, s.at_ref F (s.size - 1) = .ok (b F)) ∧
        (∀ F x, (s.store F (f F) x).«at» F 0 = .ok x) ∧
        ∀ F x, (s.store F (b F) x).«at» F (s.size - 1) = .ok x := by
  have hb : back w s = s.ref_at (s.size - 1) := by
    simp only [back, size_t_sub_one w s.size h0 hw]
  have hlen : ∀ (i : Nat), i < s.size → ∀ k, i < (s.m_soa k).size := fun i hi k => by
    rw [hs k]; exact hi
  have href : ∀ (i : Nat), i < s.size → s.ref_at i = .ok fun _ => ⟨i⟩ := fun i hi => by
    simp only [ref_at, at_internal, if_pos (hlen i hi)]
  have hat : ∀ (i : Nat), i < s.size → ∀ F, s.at_ref F i = .ok ⟨i⟩ := fun i hi F => by
    simp only [at_ref, if_pos (hlen i hi F)]
  have hwr : ∀ (i : Nat), i < s.size → ∀ F x, (s.store F ⟨i⟩ x).«at» F i = .ok x :=
    fun i hi F x => (at_eq_ok_iff _ _ _ _).2 (getElem?_store_self s F ⟨i⟩ x (hlen i hi F))
  have hl : s.size - 1 < s.size := Nat.sub_lt h0 Nat.one_pos
  refine ⟨rfl, hb, fun _ => ⟨0⟩, fun _ => ⟨s.size - 1⟩, href 0 h0, ?_, hat 0 h0, hat _ hl,
    hwr 0 h0, hwr _ hl⟩
  rw [hb]
  exact href _ hl

end vector_base

/-- Witness for claim C19: `front()` and `back()` on the store of `(1,"a")`, `(2,"b")`,
`(3,"c")`, with a 64-bit `size_t`. -/
theorem front_back_spec_witness :
    (example_store.synced ∧ 0 < example_store.size ∧ example_store.size < 2 ^ 64) ∧
      example_store.front = example_store.ref_at 0 ∧
      vector_base.back 64 example_store = example_store.ref_at 2 ∧
      vector_base.back 64 example_store = .ok (fun _ => ⟨2⟩) :=
  have h := vector_base.front_back_spec 64 example_store example_store_synced (by decide)
    (by decide)
  ⟨⟨example_store_synced, by decide, by decide⟩, h.1, h.2.1, h.2.1.trans rfl⟩

/-! ## Iterators -/

namespace const_iterator

variable {N : Nat} {Types : Fin N → Type}

theorem m_ptr_iterate_incr (it : const_iterator N) (i : Nat) (I : Fin N) :
    ((incr^[i] it).m_ptr I).offset = (it.m_ptr I).offset + i := by
  induction i generalizing it with
  | zero => simp
  | succ n ih =>
    rw [Function.iterate_succ_apply, ih]
    simp only [incr, Nat.cast_succ]
    omega

theorem ext_m_ptr (a b : const_iterator N) (h : ∀ I, (a.m_ptr I).offset = (b.m_ptr I).offset) :
    a = b := by
  cases a with | mk pa => cases b with | mk pb =>
  congr 1
  funext I
  have := h I
  cases hpa : pa I; cases hpb : pb I
  simp only [hpa, hpb] at this
  rw [this]

theorem eq_iff (a b : const_iterator N) : a.eq b = true ↔ a = b := by
  simp only [eq, decide_eq_true_eq]
  constructor
  · intro h
    exact ext_m_ptr a b fun I => by rw [h I]
  · rintro rfl I
    rfl

theorem ne_iff (a b : const_iterator N) : a.ne b = true ↔ a ≠ b := by
  unfold ne
  rw [Bool.not_eq_true', decide_eq_false_iff_not]
  have := eq_iff a b
  simp only [eq, decide_eq_true_eq] at this
  exact not_congr this

end const_iterator

namespace vector_base

variable {N : Nat} {Types : Fin N → Type}

theorem offset_iterate_begin (s : vector_base N Types) (i : Nat) (I : Fin N) :
    ((const_iterator.incr^[i] s.begin).m_ptr I).offset = (i : Int) := by
  rw [const_iterator.m_ptr_iterate_incr]
  simp [vector_base.begin, begin_internal]

end vector_base

namespace vector_base

variable {N : Nat} {Types : Fin N → Type}

/-- Claim C17: for iterators of the same store, `end() - begin()` is `size()`, for the full
iterators and for the partial iterators over every non-empty selection; the difference is that
of the pointers of the first tracked field. -/
theorem end_minus_begin [NeZero N] (s : vector_base N Types) :
    s.«end».diff s.begin = (s.size : Int) ∧
      (∀ a b : const_iterator N, a.diff b = (a.m_ptr 0).offset - (b.m_ptr 0).offset) ∧
      ∀ (Members : List (Fin N)) (h : 0 < Members.length),
        (s.end_members Members).diff (s.begin_members Members) h = (s.size : Int) ∧
        ∀ a b : partial_const_iterator N Members,
          a.diff b h = (a.m_ptr ⟨0, h⟩).offset - (b.m_ptr ⟨0, h⟩).offset := by
  refine ⟨?_, fun _ _ => rfl, fun Members h => ⟨?_, fun _ _ => rfl⟩⟩
  · simp [const_iterator.diff, vector_base.«end», end_internal, vector_base.begin,
      begin_internal]
  · simp [partial_const_iterator.diff, end_members, begin_members]

/-- Claim C18: `begin() == end()`, which is also `cbegin() == cend()`, holds exactly when the
store is empty; on a non-empty store `begin() != end()`. -/
theorem begin_eq_end_iff_empty [NeZero N] (s : vector_base N Types) :
    (s.begin.eq s.«end» = true ↔ s.empty = true) ∧
      (s.empty = true → s.begin.eq s.«end» = true ∧ s.begin.ne s.«end» = false) ∧
      (s.empty = false → s.begin.ne s.«end» = true ∧ s.begin.eq s.«end» = false) := by
  have hempty : s.empty = true ↔ s.size = 0 := by
    simp only [vector_base.empty, container.empty, size, container.size, List.isEmpty_iff,
      List.length_eq_zero]
  have heq : s.begin.eq s.«end» = true ↔ s.size = 0 := by
    rw [const_iterator.eq_iff]
    constructor
    · intro h
      have h0 := congrArg (fun it : const_iterator N => (it.m_ptr 0).offset) h
      have : (0 : Int) = (s.size : Int) := h0
      omega
    · intro h
      refine const_iterator.ext_m_ptr _ _ fun I => ?_
      show (0 : Int) = (s.size : Int)
      rw [h]; rfl
  have hne : s.begin.ne s.«end» = !s.begin.eq s.«end» := rfl
  refine ⟨heq.trans hempty.symm, fun h => ?_, fun h => ?_⟩
  · have h1 := heq.2 (hempty.1 h)
    exact ⟨h1, by rw [hne, h1]; rfl⟩
  · have h1 : s.begin.eq s.«end» = false := by
      cases hb : s.begin.eq s.«end»
      · rfl
      · rw [hempty.2 (heq.1 hb)] at h
        cases h
    exact ⟨by rw [hne, h1]; rfl, h1⟩

end vector_base

/-- Witness for claim C17: the store of `(1,"a")`, `(2,"b")`, `(3,"c")`, with the full iterators
and with the partial iterators over the selection `<1, 0, 1>`. -/
theorem end_minus_begin_witness :
    example_store.«end».diff example_store.begin = 3 ∧
      (example_store.end_members example_members).diff
        (example_store.begin_members example_members) (by decide) = 3 :=
  have h := vector_base.end_minus_begin example_store
  ⟨h.1, (h.2.2 example_members (by decide)).1⟩

/-- Witness for claim C18: the cleared store is empty and has `begin() == end()`; the store of
`(1,"a")`, `(2,"b")`, `(3,"c")` is not and has `begin() != end()`. -/
theorem begin_eq_end_iff_empty_witness :
    (example_store.clear.empty = true ∧
        example_store.clear.begin.eq example_store.clear.«end» = true) ∧
      (example_store.empty = false ∧ example_store.begin.ne example_store.«end» = true) :=
  ⟨⟨rfl, ((vector_base.begin_eq_end_iff_empty example_store.clear).2.1 rfl).1⟩,
    ⟨rfl, ((vector_base.begin_eq_end_iff_empty example_store).2.2 rfl).1⟩⟩

namespace partial_const_iterator

variable {N : Nat} {Types : Fin N → Type} {Members : List (Fin N)}

theorem getIndex_eq_some_of_first (mapping : List Nat) (MemberIndex j : Nat)
    (hj : j < mapping.length) (hhit : mapping.get ⟨j, hj⟩ = MemberIndex) (Index : Nat)
    (hle : Index ≤ j)
    (hfirst : ∀ (m : Nat) (hm : m < mapping.length), Index ≤ m → m < j →
      mapping.get ⟨m, hm⟩ ≠ MemberIndex) :
    getIndex mapping MemberIndex Index = some j := by
  generalize hd : j - Index = n
  induction n generalizing Index with
  | zero =>
    have : Index = j := by omega
    subst this
    rw [getIndex, dif_pos hj, if_pos hhit]
  | succ n ih =>
    have hlt : Index < j := by omega
    have hI : Index < mapping.length := lt_trans hlt hj
    rw [getIndex, dif_pos hI, if_neg (hfirst Index hI (Nat.le_refl _) hlt)]
    exact ih (Index + 1) hlt (fun m hm h1 h2 => hfirst m hm (by omega) h2) (by omega)

theorem getIndex_of_mem (Members : List (Fin N)) (Field : Fin N) (hmem : Field ∈ Members) :
    ∃ (j : Nat) (h : j < Members.length),
      getIndex (ms_mapping Members) Field.val 0 = some j ∧ Members.get ⟨j, h⟩ = Field ∧
      ∀ (m : Nat) (hm : m < Members.length), m < j → Members.get ⟨m, hm⟩ ≠ Field := by
  classical
  have hex : ∃ j, ∃ h : j < Members.length, Members.get ⟨j, h⟩ = Field := by
    obtain ⟨n, hn⟩ := List.mem_iff_get.1 hmem
    exact ⟨n.val, n.isLt, hn⟩
  obtain ⟨h, hget⟩ := Nat.find_spec hex
  have hmin : ∀ (m : Nat) (hm : m < Members.length), m < Nat.find hex →
      Members.get ⟨m, hm⟩ ≠ Field := fun m hm hlt heq =>
    Nat.find_min hex hlt ⟨hm, heq⟩
  have hlen : (ms_mapping Members).length = Members.length := by
    simp [ms_mapping]
  refine ⟨Nat.find hex, h, ?_, hget, hmin⟩
  refine getIndex_eq_some_of_first _ _ _ (by rw [hlen]; exact h) ?_ 0 (Nat.zero_le _) ?_
  · have hv := congrArg Fin.val hget
    simpa only [ms_mapping, List.get_eq_getElem, List.getElem_map] using hv
  · intro m hm _ hlt heq
    have hm2 : m < Members.length := by rw [← hlen]; exact hm
    refine hmin m hm2 hlt (Fin.ext ?_)
    simp only [ms_mapping, List.get_eq_getElem, List.getElem_map] at heq
    rw [List.get_eq_getElem]
    exact heq

theorem m_ptr_iterate_incr_members (it : partial_const_iterator N Members) (i : Nat)
    (j : Fin Members.length) :
    ((incr^[i] it).m_ptr j).offset = (it.m_ptr j).offset + i := by
  induction i generalizing it with
  | zero => simp
  | succ n ih =>
    rw [Function.iterate_succ_apply, ih]
    simp only [incr, Nat.cast_succ]
    omega

theorem ext_m_ptr_members (a b : partial_const_iterator N Members)
    (h : ∀ j, (a.m_ptr j).offset = (b.m_ptr j).offset) : a = b := by
  cases a with | mk pa => cases b with | mk pb =>
  congr 1
  funext j
  have := h j
  cases hpa : pa j; cases hpb : pb j
  simp only [hpa, hpb] at this
  rw [this]

end partial_const_iterator

namespace partial_const_iterator

variable {N : Nat} {Types : Fin N → Type} {Members : List (Fin N)}

theorem eq_iff_members (a b : partial_const_iterator N Members) : a.eq b = true ↔ a = b := by
  simp only [eq, decide_eq_true_eq]
  constructor
  · intro h
    exact ext_m_ptr_members a b fun j => by rw [h j]
  · rintro rfl j
    rfl

theorem ne_iff_members (a b : partial_const_iterator N Members) : a.ne b = true ↔ a ≠ b := by
  unfold ne
  rw [Bool.not_eq_true', decide_eq_false_iff_not]
  have := eq_iff_members a b
  simp only [eq, decide_eq_true_eq] at this
  exact not_congr this

end partial_const_iterator

namespace vector_base

variable {N : Nat} {Types : Fin N → Type}

theorem offset_iterate_begin_members (s : vector_base N Types) (Members : List (Fin N))
    (i : Nat) (j : Fin Members.length) :
    ((partial_const_iterator.incr^[i] (s.begin_members Members)).m_ptr j).offset
      = (i : Int) := by
  rw [partial_const_iterator.m_ptr_iterate_incr_members]
  simp [begin_members]

end vector_base

/-! ## The allocator adapter -/

namespace allocator_wrapper

variable {Allocator : Type} {T : Type}

/-- Claim C20, as the code behaves: `operator==` compares the addresses of the two adapters,
not the allocators they wrap, and `operator!=` is its negation.  An adapter is equal to itself;
two adapters at different addresses are unequal whatever they wrap, so adapters wrapping
different allocators are unequal; and an adapter compared with an adapter for another field
type is compared with a temporary converted from it, and is unequal to it. -/
theorem eq_compares_addresses (a b : allocator_wrapper Allocator T) :
    (a.eq b = true ↔ a.address = b.address) ∧
      a.ne b = !a.eq b ∧
      a.eq a = true ∧
      (a.address ≠ b.address → a.eq b = false ∧ a.ne b = true) ∧
      ((a.address = b.address → a = b) → a.m_allocator ≠ b.m_allocator →
        a.eq b = false ∧ a.ne b = true) ∧
      ∀ (U : Type) (c : allocator_wrapper Allocator U) (temporary : Nat),
        temporary ≠ a.address →
          (convert temporary c : allocator_wrapper Allocator T).m_allocator = c.m_allocator ∧
          a.eq_converted temporary c = false := by
  have hne : ∀ {x y : Nat}, x ≠ y → decide (x = y) = false := fun h =>
    decide_eq_false h
  refine ⟨by simp only [eq, decide_eq_true_eq], rfl, by simp only [eq, decide_True],
    fun h => ⟨hne h, ?_⟩, fun hobj hdiff => ?_, fun U c t ht => ⟨rfl, ?_⟩⟩
  · simp only [ne, hne h, Bool.not_false]
  · have h : a.address ≠ b.address := fun h => hdiff (congrArg m_allocator (hobj h))
    exact ⟨hne h, by simp only [ne, hne h, Bool.not_false]⟩
  · simp only [eq_converted, eq, convert]
    exact hne (Ne.symm ht)

end allocator_wrapper

/-- Counterexample to claim C20 as stated: two adapters for the same field type that live at
the addresses 100 and 200 and wrap the same allocator compare unequal, and so does an adapter
compared with an adapter for another field type that wraps the same allocator. -/
theorem adapters_of_same_allocator_unequal :
    example_adapter_a.m_allocator = example_adapter_b.m_allocator ∧
      example_adapter_a.eq example_adapter_b = false ∧
      example_adapter_a.ne example_adapter_b = true ∧
      example_adapter_a.m_allocator = example_adapter_c.m_allocator ∧
      example_adapter_a.eq_converted 400 example_adapter_c = false :=
  ⟨rfl, rfl, rfl, rfl, rfl⟩

/-- Witness for claim C20 as the code behaves, on the adapters at the addresses 100 and 200. -/
theorem eq_compares_addresses_witness :
    example_adapter_a.eq example_adapter_a = true ∧
      example_adapter_a.eq example_adapter_b = false ∧
      example_adapter_a.eq_converted 400 example_adapter_c = false :=
  have h := allocator_wrapper.eq_compares_addresses example_adapter_a example_adapter_b
  ⟨h.2.2.1, (h.2.2.2.1 (by decide)).1, (h.2.2.2.2.2 String example_adapter_c 400 (by decide)).2⟩

/-! ## Offset arithmetic on iterators -/

namespace const_iterator

variable {N : Nat}

theorem m_ptr_iterate_decr (it : const_iterator N) (i : Nat) (I : Fin N) :
    ((decr^[i] it).m_ptr I).offset = (it.m_ptr I).offset - i := by
  induction i generalizing it with
  | zero => simp
  | succ n ih =>
    rw [Function.iterate_succ_apply, ih]
    simp only [decr, Nat.cast_succ]
    omega

end const_iterator

namespace partial_const_iterator

variable {N : Nat} {Members : List (Fin N)}

theorem m_ptr_iterate_decr_members (it : partial_const_iterator N Members) (i : Nat)
    (j : Fin Members.length) :
    ((decr^[i] it).m_ptr j).offset = (it.m_ptr j).offset - i := by
  induction i generalizing it with
  | zero => simp
  | succ n ih =>
    rw [Function.iterate_succ_apply, ih]
    simp only [decr, Nat.cast_succ]
    omega

end partial_const_iterator

/-- Claim C21, evaluated on the code: all four iterator classes carry the category
`random_access_iterator_tag`, yet `it + n` and `it - n` are rejected for every iterator, full or
partial, and every `n`; only `++` and `--` applied `n` times move every pointer of the iterator
`n` elements forward or back. -/
theorem offset_arithmetic_missing {N : Nat} (Members : List (Fin N)) (it : const_iterator N)
    (pit : partial_const_iterator N Members) (n : Nat) :
    ((const_iterator.iterator_category = iterator_tag.random_access_iterator_tag ∧
        it.plus n = none ∧ it.minus n = none) ∧
      ∀ I, ((const_iterator.incr^[n] it).m_ptr I).offset = (it.m_ptr I).offset + n ∧
        ((const_iterator.decr^[n] it).m_ptr I).offset = (it.m_ptr I).offset - n) ∧
    ((partial_const_iterator.iterator_category = iterator_tag.random_access_iterator_tag ∧
        pit.plus n = none ∧ pit.minus n = none) ∧
      ∀ j, ((partial_const_iterator.incr^[n] pit).m_ptr j).offset = (pit.m_ptr j).offset + n ∧
        ((partial_const_iterator.decr^[n] pit).m_ptr j).offset = (pit.m_ptr j).offset - n) :=
  ⟨⟨⟨rfl, rfl, rfl⟩, fun I =>
      ⟨const_iterator.m_ptr_iterate_incr it n I, const_iterator.m_ptr_iterate_decr it n I⟩⟩,
    ⟨⟨rfl, rfl, rfl⟩, fun j =>
      ⟨partial_const_iterator.m_ptr_iterate_incr_members pit n j,
        partial_const_iterator.m_ptr_iterate_decr_members pit n j⟩⟩⟩

/-! ## `shrink_to_fit` -/

namespace vector_base

variable {N : Nat} {Types : Fin N → Type}

end vector_base

namespace partial_const_iterator

variable {N : Nat}

theorem getIndex_eq_none_of_absent (mapping : List Nat) (MemberIndex Index : Nat)
    (habs : ∀ (m : Nat) (hm : m < mapping.length), Index ≤ m →
      mapping.get ⟨m, hm⟩ ≠ MemberIndex) :
    getIndex mapping MemberIndex Index = none := by
  generalize hd : mapping.length - Index = n
  induction n generalizing Index with
  | zero =>
    rw [getIndex, dif_neg (by omega)]
  | succ n ih =>
    have hI : Index < mapping.length := by omega
    rw [getIndex, dif_pos hI, if_neg (habs Index hI (Nat.le_refl _))]
    exact ih (Index + 1) (fun m hm h1 => habs m hm (by omega)) (by omega)

theorem getIndex_cases (mapping : List Nat) (MemberIndex : Nat) :
    (getIndex mapping MemberIndex 0 = none ∧
        ∀ (m : Nat) (hm : m < mapping.length), mapping.get ⟨m, hm⟩ ≠ MemberIndex) ∨
      ∃ (j : Nat) (hj : j < mapping.length),
        getIndex mapping MemberIndex 0 = some j ∧ mapping.get ⟨j, hj⟩ = MemberIndex ∧
        ∀ (m : Nat) (hm : m < mapping.length), m < j → mapping.get ⟨m, hm⟩ ≠ MemberIndex := by
  classical
  by_cases hex : ∃ j, ∃ hj : j < mapping.length, mapping.get ⟨j, hj⟩ = MemberIndex
  · right
    obtain ⟨hj, hget⟩ := Nat.find_spec hex
    have hmin : ∀ (m : Nat) (hm : m < mapping.length), m < Nat.find hex →
        mapping.get ⟨m, hm⟩ ≠ MemberIndex := fun m hm hlt heq =>
      Nat.find_min hex hlt ⟨hm, heq⟩
    exact ⟨Nat.find hex, hj,
      getIndex_eq_some_of_first mapping MemberIndex _ hj hget 0 (Nat.zero_le _)
        (fun m hm _ => hmin m hm), hget, hmin⟩
  · left
    have habs : ∀ (m : Nat) (hm : m < mapping.length), mapping.get ⟨m, hm⟩ ≠ MemberIndex :=
      fun m hm heq => hex ⟨m, hm, heq⟩
    exact ⟨getIndex_eq_none_of_absent mapping MemberIndex 0 fun m hm _ => habs m hm, habs⟩

theorem get_ms_mapping (Members : List (Fin N)) (m : Nat) (hm : m < Members.length)
    (hm2 : m < (ms_mapping Members).length) :
    (ms_mapping Members).get ⟨m, hm2⟩ = (Members.get ⟨m, hm⟩).val := by
  simp only [ms_mapping, List.get_eq_getElem, List.getElem_map]

/-- Claim C23: for every ordered selection `Members` (duplicates allowed) and every identifier
`M`, `getIndex<M>()` compares `ms_mapping[Index]` with `M` from `Index = 0` on, one position
after the other, and returns the smallest position `j` with `Members[j] == M`; it yields a
result or is rejected for every `M`, and it is rejected exactly when `M` is absent from
`Members`. -/
theorem getIndex_spec (Members : List (Fin N)) (M : Fin N) :
    (∀ Index, getIndex (ms_mapping Members) M.val Index =
        if h : Index < (ms_mapping Members).length then
          if (ms_mapping Members).get ⟨Index, h⟩ = M.val then some Index
          else getIndex (ms_mapping Members) M.val (Index + 1)
        else none) ∧
      (∀ j, getIndex (ms_mapping Members) M.val 0 = some j ↔
        ∃ hj : j < Members.length, Members.get ⟨j, hj⟩ = M ∧
          ∀ (m : Nat) (hm : m < Members.length), m < j → Members.get ⟨m, hm⟩ ≠ M) ∧
      (getIndex (ms_mapping Members) M.val 0 = none ↔ M ∉ Members) ∧
      ((∃ j, getIndex (ms_mapping Members) M.val 0 = some j) ↔ M ∈ Members) := by
  have hlen : (ms_mapping Members).length = Members.length := by
    simp [ms_mapping]
  have hget : ∀ (m : Nat) (hm : m < Members.length),
      (ms_mapping Members).get ⟨m, by rw [hlen]; exact hm⟩ = M.val ↔
        Members.get ⟨m, hm⟩ = M := fun m hm => by
    rw [get_ms_mapping Members m hm]
    exact ⟨fun h => Fin.ext h, fun h => congrArg Fin.val h⟩
  have hmem : M ∈ Members ↔ ∃ (m : Nat) (hm : m < Members.length), Members.get ⟨m, hm⟩ = M := by
    rw [List.mem_iff_get]
    exact ⟨fun ⟨n, hn⟩ => ⟨n.val, n.isLt, hn⟩, fun ⟨m, hm, h⟩ => ⟨⟨m, hm⟩, h⟩⟩
  have hsome : ∀ j, getIndex (ms_mapping Members) M.val 0 = some j ↔
      ∃ hj : j < Members.length, Members.get ⟨j, hj⟩ = M ∧
        ∀ (m : Nat) (hm : m < Members.length), m < j → Members.get ⟨m, hm⟩ ≠ M := by
    intro j
    constructor
    · intro h
      rcases getIndex_cases (ms_mapping Members) M.val with ⟨hnone, _⟩ | ⟨j2, hj2, hs, hhit, hfirst⟩
      · rw [hnone] at h; cases h
      · rw [hs] at h
        have : j2 = j := Option.some.inj h
        subst this
        have hj : j2 < Members.length := by rw [← hlen]; exact hj2
        exact ⟨hj, (hget j2 hj).1 hhit, fun m hm hlt heq =>
          hfirst m (by rw [hlen]; exact hm) hlt ((hget m hm).2 heq)⟩
    · rintro ⟨hj, hhit, hfirst⟩
      exact getIndex_eq_some_of_first _ _ j (by rw [hlen]; exact hj) ((hget j hj).2 hhit) 0
        (Nat.zero_le _) fun m hm _ hlt heq =>
          hfirst m (by rw [← hlen]; exact hm) hlt ((hget m (by rw [← hlen]; exact hm)).1 heq)
  have hnone : getIndex (ms_mapping Members) M.val 0 = none ↔ M ∉ Members := by
    constructor
    · intro h hin
      obtain ⟨j, _, hj, _⟩ := getIndex_of_mem Members M hin
      rw [h] at hj; cases hj
    · intro h
      refine getIndex_eq_none_of_absent _ _ 0 fun m hm _ heq => h ?_
      have hm2 : m < Members.length := by rw [← hlen]; exact hm
      exact hmem.2 ⟨m, hm2, (hget m hm2).1 heq⟩
  refine ⟨fun Index => by rw [getIndex], hsome, hnone, ?_⟩
  constructor
  · rintro ⟨j, hj⟩
    by_contra habs
    rw [hnone.2 habs] at hj
    cases hj
  · intro hin
    obtain ⟨j, _, hj, _⟩ := getIndex_of_mem Members M hin
    exact ⟨j, hj⟩

end partial_const_iterator

/-- Witness for claim C23: in the selection `<1, 0, 1>` of the two-field store, field 1 is found
at position 0 and field 0 at position 1; in the selection `<1, 1>` field 0 is rejected. -/
theorem getIndex_spec_witness :
    partial_const_iterator.getIndex (partial_const_iterator.ms_mapping example_members) 1 0
        = some 0 ∧
      partial_const_iterator.getIndex (partial_const_iterator.ms_mapping example_members) 0 0
        = some 1 ∧
      partial_const_iterator.getIndex
        (partial_const_iterator.ms_mapping ([1, 1] : List (Fin 2))) 0 0 = none :=
  ⟨((partial_const_iterator.getIndex_spec example_members 1).2.1 0).2
      ⟨by decide, by decide, by decide⟩,
    ((partial_const_iterator.getIndex_spec example_members 0).2.1 1).2
      ⟨by decide, by decide, by decide⟩,
    (partial_const_iterator.getIndex_spec ([1, 1] : List (Fin 2)) 0).2.2.1.2 (by decide)⟩

/-! ## Writes, round trips and the empty store -/

namespace vector_base

variable {N : Nat} {Types : Fin N → Type}

theorem m_soa_store_of_ne (s : vector_base N Types) (F : Fin N) (r : ref) (x : Types F)
    (k : Fin N) (h : k ≠ F) : (s.store F r x).m_soa k = s.m_soa k := by
  simp only [store, Function.update_noteq h]

theorem size_store (s : vector_base N Types) (F : Fin N) (r : ref) (x : Types F) (k : Fin N) :
    ((s.store F r x).m_soa k).size = (s.m_soa k).size ∧
      ((s.store F r x).m_soa k).capacity = (s.m_soa k).capacity := by
  by_cases hk : k = F
  · subst hk
    simp only [store, Function.update_same, container.assign, container.size,
      container.capacity, List.length_set, and_self]
  · rw [m_soa_store_of_ne s F r x k hk]
    exact ⟨rfl, rfl⟩

/-- Claim C24: on a store whose columns have equal length, for `i < size` a write of `v`
through the reference that `at<F>(i)` returns (the same reference as component `F` of
`ref_at(i)`) changes only element `i` of column `F`: afterwards `at<F>(i)` is `v`, every other
field of row `i` and every field of every other row is unchanged, and so are `size()`,
`capacity()` and the length and capacity of every column. -/
theorem write_through_at_spec [NeZero N] (s : vector_base N Types) (hs : s.synced)
    (F : Fin N) (i : Nat) (hi : i < s.size) (v : Types F) :
    ∃ (r : ref) (row : reference_list N),
      s.at_ref F i = .ok r ∧ s.ref_at i = .ok row ∧ row F = r ∧
      (s.store F r v).«at» F i = .ok v ∧
      (∀ F2, F2 ≠ F → ∀ i2, (s.store F r v).«at» F2 i2 = s.«at» F2 i2) ∧
      (∀ i2, i2 ≠ i → ∀ F2, (s.store F r v).«at» F2 i2 = s.«at» F2 i2) ∧
      (∀ i2, i2 ≠ i → (s.store F r v).value_at i2 = s.value_at i2) ∧
      (s.store F r v).size = s.size ∧ (s.store F r v).capacity = s.capacity ∧
      ∀ k, ((s.store F r v).m_soa k).size = (s.m_soa k).size ∧
        ((s.store F r v).m_soa k).capacity = (s.m_soa k).capacity := by
  have hlen : ∀ k, i < (s.m_soa k).size := fun k => by rw [hs k]; exact hi
  refine ⟨⟨i⟩, fun _ => ⟨i⟩, ?_, ?_, rfl, ?_, fun F2 h2 i2 => ?_, fun i2 h2 F2 => ?_,
    fun i2 h2 => ?_, (size_store s F ⟨i⟩ v 0).1, (size_store s F ⟨i⟩ v 0).2,
    size_store s F ⟨i⟩ v⟩
  · simp only [at_ref, if_pos (hlen F)]
  · simp only [ref_at, at_internal, if_pos hlen]
  · exact (at_eq_ok_iff _ _ _ _).2 (getElem?_store_self s F ⟨i⟩ v (hlen F))
  · rw [vector_base.«at», m_soa_store_of_ne s F ⟨i⟩ v F2 h2]
    rfl
  · exact at_congr _ _ _ _ _ (getElem?_store_of_ne s F ⟨i⟩ v F2 i2 h2)
  · exact value_at_congr _ _ _ _ fun k => getElem?_store_of_ne s F ⟨i⟩ v k i2 h2


end vector_base

/-- Witness for claim C24: `"w"` is written to field 1 of row 1 of the store of `(1,"a")`,
`(2,"b")`, `(3,"c")`. -/
theorem write_through_at_spec_witness :
    (example_store.synced ∧ 1 < example_store.size) ∧
      ∃ (r : ref) (row : reference_list 2),
        example_store.at_ref 1 1 = .ok r ∧ example_store.ref_at 1 = .ok row ∧ row 1 = r ∧
        (example_store.store 1 r "w").«at» 1 1 = .ok "w" ∧
        (∀ F2, F2 ≠ 1 → ∀ i2,
          (example_store.store 1 r "w").«at» F2 i2 = example_store.«at» F2 i2) ∧
        (∀ i2, i2 ≠ 1 → ∀ F2,
          (example_store.store 1 r "w").«at» F2 i2 = example_store.«at» F2 i2) ∧
        (∀ i2, i2 ≠ 1 →
          (example_store.store 1 r "w").value_at i2 = example_store.value_at i2) ∧
        (example_store.store 1 r "w").size = example_store.size ∧
        (example_store.store 1 r "w").capacity = example_store.capacity ∧
        ∀ k, ((example_store.store 1 r "w").m_soa k).size = (example_store.m_soa k).size ∧
          ((example_store.store 1 r "w").m_soa k).capacity
            = (example_store.m_soa k).capacity :=
  ⟨⟨example_store_synced, by decide⟩,
    vector_base.write_through_at_spec example_store example_store_synced 1 1 (by decide) "w"⟩

namespace vector_base

variable {N : Nat} {Types : Fin N → Type}

/-- Claim C25: on a store whose columns have equal length, for `pos ≤ size` the call
`insert(pos, row)` followed by `erase(pos)` returns `pos` and restores the size and every row
(the elements of every column); `push_back(row)` followed by `pop_back()` does so too. -/
theorem insert_erase_round_trip [NeZero N] (s : vector_base N Types) (hs : s.synced)
    (_pos : Nat) (_args : value_list Types) (hp : _pos ≤ s.size) :
    (((s.insert _pos _args).erase _pos).1 = _pos ∧
      ((s.insert _pos _args).erase _pos).2.size = s.size ∧
      (∀ k, (((s.insert _pos _args).erase _pos).2.m_soa k).data = (s.m_soa k).data) ∧
      ∀ i, ((s.insert _pos _args).erase _pos).2.value_at i = s.value_at i ∧
        ∀ F, ((s.insert _pos _args).erase _pos).2.«at» F i = s.«at» F i) ∧
    ((s.push_back _args).pop_back.size = s.size ∧
      (∀ k, ((s.push_back _args).pop_back.m_soa k).data = (s.m_soa k).data) ∧
      ∀ i, (s.push_back _args).pop_back.value_at i = s.value_at i ∧
        ∀ F, (s.push_back _args).pop_back.«at» F i = s.«at» F i) := by
  have h1 : ∀ k, (((s.insert _pos _args).erase _pos).2.m_soa k).data = (s.m_soa k).data :=
    fun k => by
      have hk : _pos ≤ (s.m_soa k).size := by rw [hs k]; exact hp
      refine List.ext_getElem? fun i => ?_
      have he := container.getElem?_erase ((s.m_soa k).insert _pos (_args k)) _pos (_pos + 1) i
        (Nat.le_succ _)
      have hins := fun j => container.getElem?_insert (s.m_soa k) _pos (_args k) j hk
      show (((s.m_soa k).insert _pos (_args k)).erase _pos (_pos + 1)).data[i]? = _
      rw [he]
      split_ifs with h
      · rw [hins i, if_pos h]
      · rw [hins, if_neg (by omega), if_neg (by omega)]
        congr 1
        omega
  have h2 : ∀ k, ((s.push_back _args).pop_back.m_soa k).data = (s.m_soa k).data := fun k => by
    simp only [vector_base.pop_back, vector_base.push_back, push_back_internal,
      container.pop_back, container.push_back, List.dropLast_concat]
  refine ⟨⟨rfl, ?_, h1, fun i => ⟨value_at_congr _ _ _ _ fun k => by rw [h1 k],
      fun F => at_congr _ _ _ _ _ (by rw [h1 F])⟩⟩,
    ⟨?_, h2, fun i => ⟨value_at_congr _ _ _ _ fun k => by rw [h2 k],
      fun F => at_congr _ _ _ _ _ (by rw [h2 F])⟩⟩⟩
  · rw [size, container.size, h1 0]; rfl
  · rw [size, container.size, h2 0]; rfl

/-- Claim C26: on an empty store `front()`, `back()`, `ref_at` and `value_at` at any index
return no row but raise `OutOfRange`: `back()` computes `size() - 1` in `size_t`, of `w` bits,
which wraps to `2^w - 1`, and the bounds-checked access of column 0 rejects that index, as it
rejects every index, because it is not below `size()`. -/
theorem empty_store_access [NeZero N] (w : Nat) (s : vector_base N Types)
    (h0 : s.size = 0) :
    s.front = .error Error.OutOfRange ∧
      back w s = .error Error.OutOfRange ∧
      size_t_sub w s.size 1 = 2 ^ w - 1 ∧
      back w s = s.ref_at (2 ^ w - 1) ∧
      s.size ≤ 2 ^ w - 1 ∧
      (s.m_soa 0).«at» (2 ^ w - 1) = .error Error.OutOfRange ∧
      ∀ i, s.ref_at i = .error Error.OutOfRange ∧ s.value_at i = .error Error.OutOfRange ∧
        s.«at» 0 i = .error Error.OutOfRange := by
  have hno : ∀ i, ¬ ∀ k, i < (s.m_soa k).data.length := fun i h => by
    have := h 0
    rw [size, container.size] at h0
    omega
  have href : ∀ i, s.ref_at i = .error Error.OutOfRange := fun i => by
    simp only [ref_at, at_internal, container.size, if_neg (hno i)]
  have hat : ∀ i, (s.m_soa 0).«at» i = .error Error.OutOfRange := fun i =>
    (container.column_at_eq_error_iff _ _ _).2 ⟨rfl, by
      have : (s.m_soa 0).size = 0 := h0
      rw [this]; exact Nat.zero_le _⟩
  have hpow : 0 < 2 ^ w := Nat.two_pow_pos w
  have hsub : size_t_sub w s.size 1 = 2 ^ w - 1 := by
    rw [h0]
    unfold size_t_sub
    rw [Nat.zero_add]
    by_cases hw : 2 ^ w = 1
    · rw [hw]
    · have h1 : 1 % 2 ^ w = 1 := Nat.mod_eq_of_lt (by omega)
      rw [h1]
      exact Nat.mod_eq_of_lt (by omega)
  refine ⟨href 0, href _, hsub, by rw [back, hsub], by rw [h0]; exact Nat.zero_le _, hat _,
    fun i => ⟨href i, ?_, hat i⟩⟩
  simp only [value_at, dif_neg (hno i)]

end vector_base

/-- Witness for claim C25: `insert(1, (7,"x"))` then `erase(1)`, and `push_back((7,"x"))` then
`pop_back()`, on the store of `(1,"a")`, `(2,"b")`, `(3,"c")`. -/
theorem insert_erase_round_trip_witness :
    (example_store.synced ∧ 1 ≤ example_store.size) ∧
      ((example_store.insert 1 (example_row 7 "x")).erase 1).1 = 1 ∧
      ((example_store.insert 1 (example_row 7 "x")).erase 1).2.size = example_store.size ∧
      ((example_store.insert 1 (example_row 7 "x")).erase 1).2.value_at 1
        = example_store.value_at 1 ∧
      (example_store.push_back (example_row 7 "x")).pop_back.size = example_store.size :=
  have h := vector_base.insert_erase_round_trip example_store example_store_synced 1
    (example_row 7 "x") (by decide)
  ⟨⟨example_store_synced, by decide⟩, h.1.1, h.1.2.1, (h.1.2.2.2 1).1, h.2.1⟩

/-- Witness for claim C26: the cleared two-field store with a 64-bit `size_t`: `back()` asks for
index `2^64 - 1` and raises `OutOfRange`. -/
theorem empty_store_access_witness :
    example_store.clear.size = 0 ∧
      example_store.clear.front = .error Error.OutOfRange ∧
      vector_base.back 64 example_store.clear = .error Error.OutOfRange ∧
      vector_base.size_t_sub 64 example_store.clear.size 1 = 2 ^ 64 - 1 ∧
      example_store.clear.value_at 0 = .error Error.OutOfRange :=
  have h := vector_base.empty_store_access 64 example_store.clear rfl
  ⟨rfl, h.1, h.2.1, h.2.2.1, (h.2.2.2.2.2.2 0).2.1⟩

/-! ## The iterator classes: `operator*` and `value` -/

namespace vector_base

variable {N : Nat} {Types : Fin N → Type}

/-- Claim C15, evaluated on the code, on a store whose columns have equal length.  The full
iterator reaches `end()` after `size()` increments of `begin()` and not before.  After
`i < size` increments `const_iterator::operator*` yields the references to row `i` (component
`k` is what `at<k>(i)` returns) and `iterator::value<Field>()` the reference that
`at<Field>(i)` returns, as does `const_iterator::value<Field>()` for an unscoped `MembersDesc`.
But `iterator::operator*` is rejected for every iterator, and `const_iterator::value<Field>()`
is rejected when `MembersDesc` is a scoped enumeration.  Where a member is accepted, each
component is read through the pointer of its own column, and `end()` points at no row. -/
theorem full_iterator_classes [NeZero N] (s : vector_base N Types) (hs : s.synced) :
    (const_iterator.incr^[s.size] s.begin = s.«end» ∧
      (const_iterator.incr^[s.size] s.begin).eq s.«end» = true ∧
      ∀ i, i < s.size → (const_iterator.incr^[i] s.begin).ne s.«end» = true) ∧
    (∀ i, i < s.size →
      ∃ (r : reference_list N) (v : value_list Types),
        const_iterator.star s (const_iterator.incr^[i] s.begin) = some r ∧
        s.ref_at i = .ok r ∧ s.load_all r = some v ∧ s.value_at i = .ok v ∧
        (∀ k, s.at_ref k i = .ok (r k) ∧ s.«at» k i = .ok (v k)) ∧
        ∀ Field,
          iterator.value s (const_iterator.incr^[i] s.begin) Field = some (r Field) ∧
          const_iterator.value enum_kind.unscoped s (const_iterator.incr^[i] s.begin) Field
            = some (r Field) ∧
          s.load Field (r Field) = some (v Field)) ∧
    (∀ it : const_iterator N,
      iterator.star s it = none ∧
      ∀ Field, const_iterator.value enum_kind.scoped s it Field = none) ∧
    (∀ it : const_iterator N,
      (∀ I, 0 ≤ (it.m_ptr I).offset ∧ (it.m_ptr I).offset < ((s.m_soa I).size : Int)) →
        const_iterator.star s it = some (fun I => ⟨(it.m_ptr I).offset.toNat⟩) ∧
        ∀ Field, iterator.value s it Field = some ⟨(it.m_ptr Field).offset.toNat⟩) ∧
    (const_iterator.star s s.«end» = none ∧ ∀ Field, iterator.value s s.«end» Field = none) := by
  have hend : const_iterator.incr^[s.size] s.begin = s.«end» :=
    const_iterator.ext_m_ptr _ _ fun I => by
      rw [offset_iterate_begin]
      rfl
  refine ⟨⟨hend, (const_iterator.eq_iff _ _).2 hend, fun i hi => ?_⟩, fun i hi => ?_,
    fun it => ⟨rfl, fun _ => rfl⟩, fun it hv => ⟨?_, fun F => ?_⟩, ?_, fun F => ?_⟩
  · rw [const_iterator.ne_iff]
    intro h
    have h0 := congrArg (fun it : const_iterator N => (it.m_ptr 0).offset) h
    simp only [offset_iterate_begin] at h0
    have : (i : Int) = (s.size : Int) := h0
    omega
  · have hlen : ∀ k, i < (s.m_soa k).data.length := fun k => by
      have := hs k
      simp only [container.size] at this
      rw [this]; exact hi
    have hrow : ∀ k, (s.m_soa k).data[i]? = some ((s.m_soa k).data.get ⟨i, hlen k⟩) :=
      fun k => List.getElem?_eq_getElem (hlen k)
    obtain ⟨v, hvdef⟩ : ∃ v : value_list Types, v = fun k => (s.m_soa k).data.get ⟨i, hlen k⟩ :=
      ⟨_, rfl⟩
    obtain ⟨r, hri⟩ : ∃ r : reference_list N, r = fun _ => ⟨i⟩ := ⟨_, rfl⟩
    have hv : s.value_at i = .ok v := by
      simp only [value_at, dif_pos hlen, hvdef]
    have hr : s.ref_at i = .ok r := by
      simp only [ref_at, at_internal, container.size, if_pos hlen, hri]
    have hat : ∀ k, s.«at» k i = .ok (v k) := fun k => by
      rw [hvdef]; exact (at_eq_ok_iff _ _ _ _).2 (hrow k)
    have hatref : ∀ k, s.at_ref k i = .ok (r k) := fun k => by
      simp only [at_ref, container.size, if_pos (hlen k), hri]
    have hload : ∀ k, s.load k (r k) = some (v k) := fun k => by
      simp only [load, List.get?_eq_getElem?, hri, hvdef]
      exact hrow k
    have hvalid : ∀ I : Fin N, 0 ≤ (i : Int) ∧ (i : Int) < ((s.m_soa I).size : Int) :=
      fun I => by
        rw [hs I]
        omega
    have hval : ∀ F, const_iterator.deref s F ((const_iterator.incr^[i] s.begin).m_ptr F)
        = some (r F) := fun F => by
      simp only [const_iterator.deref, hri, offset_iterate_begin, Int.toNat_ofNat]
      rw [if_pos (hvalid F)]
    refine ⟨r, v, ?_, hr, (load_all_eq_some_iff _ _ _).2 fun k => ?_, hv,
      fun k => ⟨hatref k, hat k⟩, fun F => ⟨hval F, hval F, hload F⟩⟩
    · simp only [const_iterator.star, hri, offset_iterate_begin, Int.toNat_ofNat]
      rw [if_pos hvalid]
    · have := hload k
      simp only [load, List.get?_eq_getElem?] at this
      exact this
  · simp only [const_iterator.star, if_pos hv]
  · simp only [iterator.value, const_iterator.deref, if_pos (hv F)]
  · have hno : ¬ ∀ I : Fin N, 0 ≤ ((s.«end»).m_ptr I).offset ∧
        ((s.«end»).m_ptr I).offset < ((s.m_soa I).size : Int) := fun h => by
      have h0 := (h 0).2
      have : ((s.«end»).m_ptr 0).offset = ((s.m_soa 0).size : Int) := rfl
      omega
    simp only [const_iterator.star, if_neg hno]
  · have hno : ¬ (0 ≤ ((s.«end»).m_ptr F).offset ∧
        ((s.«end»).m_ptr F).offset < ((s.m_soa F).size : Int)) := fun h => by
      have h0 := h.2
      have h1 : ((s.«end»).m_ptr F).offset = (s.size : Int) := rfl
      rw [h1, hs F] at h0
      omega
    simp only [iterator.value, const_iterator.deref, if_neg hno]

end vector_base

/-- Witness for claim C15 on the store of `(1,"a")`, `(2,"b")`, `(3,"c")`: after one increment
`const_iterator::operator*` refers to row 1 and `iterator::value<1>()` to element 1 of column 1,
while `iterator::operator*` and, for a scoped `MembersDesc`, `const_iterator::value<1>()` are
rejected. -/
theorem full_iterator_classes_witness :
    example_store.synced ∧
      const_iterator.incr^[example_store.size] example_store.begin = example_store.«end» ∧
      (const_iterator.incr^[1] example_store.begin).ne example_store.«end» = true ∧
      const_iterator.star example_store (const_iterator.incr^[1] example_store.begin)
        = some (fun _ => ⟨1⟩) ∧
      iterator.value example_store (const_iterator.incr^[1] example_store.begin) 1
        = some ⟨1⟩ ∧
      iterator.star example_store (const_iterator.incr^[1] example_store.begin) = none ∧
      const_iterator.value enum_kind.scoped example_store
        (const_iterator.incr^[1] example_store.begin) 1 = none :=
  have h := vector_base.full_iterator_classes example_store example_store_synced
  ⟨example_store_synced, h.1.1, h.1.2.2 1 (by decide), rfl, rfl,
    (h.2.2.1 (const_iterator.incr^[1] example_store.begin)).1,
    (h.2.2.1 (const_iterator.incr^[1] example_store.begin)).2 1⟩

namespace vector_base

variable {N : Nat} {Types : Fin N → Type}

/-- Claim C16, evaluated on the code, on a store whose columns have equal length and for every
ordered selection `Members` (duplicates allowed).  The partial iterator reaches
`end<Members...>()` after `size()` increments of `begin<Members...>()`, and for a non-empty
selection not before.  After `i < size` increments `partial_const_iterator::operator*` yields
a tuple whose component `j` refers to element `i` of column `Members[j]`, what
`at<Members[j]>(i)` returns, in the order of the selection, and `value<Field>()` of both
classes, for a selected `Field`, refers to element `i` of column `Field`.  But
`partial_iterator::operator*`, the one of the iterator that `begin<Members...>()` returns on a
mutable store, is rejected for every iterator.  Where `operator*` is accepted, component `j`
is read through pointer `j`, and `end<Members...>()` points at no row. -/
theorem partial_iterator_classes [NeZero N] (s : vector_base N Types) (hs : s.synced)
    (Members : List (Fin N)) :
    (partial_const_iterator.incr^[s.size] (s.begin_members Members) = s.end_members Members ∧
      (partial_const_iterator.incr^[s.size] (s.begin_members Members)).eq
        (s.end_members Members) = true ∧
      (Members ≠ [] → ∀ i, i < s.size →
        (partial_const_iterator.incr^[i] (s.begin_members Members)).ne
          (s.end_members Members) = true)) ∧
    (∀ i, i < s.size →
      (∃ r : Fin Members.length → Fin N × ref,
        partial_const_iterator.star s
          (partial_const_iterator.incr^[i] (s.begin_members Members)) = some r ∧
        ∀ j, r j = (Members.get j, ⟨i⟩) ∧ s.at_ref (Members.get j) i = .ok (r j).2 ∧
          ∃ x, s.load (Members.get j) (r j).2 = some x ∧ s.«at» (Members.get j) i = .ok x) ∧
      ∀ Field, Field ∈ Members →
        partial_const_iterator.value s
          (partial_const_iterator.incr^[i] (s.begin_members Members)) Field
            = some (Field, ⟨i⟩) ∧
        partial_iterator.value s
          (partial_const_iterator.incr^[i] (s.begin_members Members)) Field
            = some (Field, ⟨i⟩) ∧
        s.at_ref Field i = .ok ⟨i⟩) ∧
    (∀ it : partial_const_iterator N Members, partial_iterator.star s it = none) ∧
    (∀ it : partial_const_iterator N Members,
      (∀ j, 0 ≤ (it.m_ptr j).offset ∧
        (it.m_ptr j).offset < ((s.m_soa (Members.get j)).size : Int)) →
        partial_const_iterator.star s it
          = some (fun j => (Members.get j, ⟨(it.m_ptr j).offset.toNat⟩))) ∧
    (Members ≠ [] → partial_const_iterator.star s (s.end_members Members) = none) := by
  have hend : partial_const_iterator.incr^[s.size] (s.begin_members Members)
      = s.end_members Members :=
    partial_const_iterator.ext_m_ptr_members _ _ fun j => by
      rw [offset_iterate_begin_members]
      rfl
  refine ⟨⟨hend, (partial_const_iterator.eq_iff_members _ _).2 hend, fun hne i hi => ?_⟩,
    fun i hi => ?_, fun _ => rfl, fun it hv => ?_, fun hne => ?_⟩
  · rw [partial_const_iterator.ne_iff_members]
    intro h
    have hpos : 0 < Members.length := List.length_pos.2 hne
    have h0 := congrArg
      (fun it : partial_const_iterator N Members => (it.m_ptr ⟨0, hpos⟩).offset) h
    simp only [offset_iterate_begin_members] at h0
    have : (i : Int) = (s.size : Int) := h0
    omega
  · have hvalid : ∀ k : Fin N, 0 ≤ (i : Int) ∧ (i : Int) < ((s.m_soa k).size : Int) :=
      fun k => by
        rw [hs k]
        omega
    have hlen : ∀ k, i < (s.m_soa k).size := fun k => by rw [hs k]; exact hi
    have hatref : ∀ k, s.at_ref k i = .ok ⟨i⟩ := fun k => by
      simp only [at_ref, if_pos (hlen k)]
    have hvalue : ∀ Field, Field ∈ Members →
        partial_const_iterator.value s
          (partial_const_iterator.incr^[i] (s.begin_members Members)) Field
            = some (Field, ⟨i⟩) := fun Field hmem => by
      obtain ⟨j, hj, hget, hcol, _⟩ := partial_const_iterator.getIndex_of_mem Members Field hmem
      simp only [partial_const_iterator.value, hget, dif_pos hj, const_iterator.deref,
        offset_iterate_begin_members, Int.toNat_ofNat]
      rw [if_pos (hvalid _), hcol]
      rfl
    constructor
    · refine ⟨fun j => (Members.get j, ⟨i⟩), ?_, fun j => ⟨rfl, hatref _, ?_⟩⟩
      · simp only [partial_const_iterator.star, offset_iterate_begin_members,
          Int.toNat_ofNat]
        rw [if_pos fun j => hvalid (Members.get j)]
      · have hl : i < (s.m_soa (Members.get j)).data.length := hlen _
        refine ⟨(s.m_soa (Members.get j)).data.get ⟨i, hl⟩, ?_, ?_⟩
        · simp only [load, List.get?_eq_getElem?]
          exact List.getElem?_eq_getElem hl
        · exact (at_eq_ok_iff _ _ _ _).2 (List.getElem?_eq_getElem hl)
    · exact fun Field hmem => ⟨hvalue Field hmem, hvalue Field hmem, hatref Field⟩
  · simp only [partial_const_iterator.star, if_pos hv]
  · have hpos : 0 < Members.length := List.length_pos.2 hne
    have hno : ¬ ∀ j, 0 ≤ ((s.end_members Members).m_ptr j).offset ∧
        ((s.end_members Members).m_ptr j).offset
          < ((s.m_soa (Members.get j)).size : Int) := fun h => by
      have h0 := (h ⟨0, hpos⟩).2
      have h1 : ((s.end_members Members).m_ptr ⟨0, hpos⟩).offset = (s.size : Int) := rfl
      rw [h1, hs (Members.get ⟨0, hpos⟩)] at h0
      omega
    simp only [partial_const_iterator.star, if_neg hno]

end vector_base

/-- Witness for claim C16 on the store of `(1,"a")`, `(2,"b")`, `(3,"c")` and the selection
`<1, 0, 1>`: after two increments `partial_const_iterator::operator*` refers to element 2 of the
columns 1, 0 and 1, in this order, `value<0>()` to element 2 of column 0, and
`partial_iterator::operator*` is rejected. -/
theorem partial_iterator_classes_witness :
    example_store.synced ∧
      partial_const_iterator.incr^[example_store.size]
          (example_store.begin_members example_members)
        = example_store.end_members example_members ∧
      (partial_const_iterator.incr^[2] (example_store.begin_members example_members)).ne
        (example_store.end_members example_members) = true ∧
      partial_const_iterator.value example_store
        (partial_const_iterator.incr^[2] (example_store.begin_members example_members)) 0
          = some (0, ⟨2⟩) ∧
      partial_iterator.star example_store
        (partial_const_iterator.incr^[2] (example_store.begin_members example_members))
          = none :=
  have h := vector_base.partial_iterator_classes example_store example_store_synced
    example_members
  ⟨example_store_synced, h.1.1, h.1.2.2 (by decide) 2 (by decide),
    ((h.2.1 2 (by decide)).2 0 (by decide)).1, h.2.2.1 _⟩

/-! ## Calls that raise: what is reached, and the guards of `reserve` and `resize` -/

namespace vector_base

variable {N : Nat} {Types : Fin N → Type}

theorem run_columns_no_raise (raise : Fin N → Option Error)
    (grow : (I : Fin N) → container (Types I) → container (Types I))
    (s : vector_base N Types) (h : ∀ k, raise k = none) :
    run_columns (fun I _ => raise I) grow (List.finRange N) s
      = (none, ⟨fun k => grow k (s.m_soa k)⟩) := by
  rcases run_columns_finRange (fun I _ => raise I) grow s with ⟨I, e, _, hI, _⟩ | ⟨_, hrun⟩
  · have : raise I = some e := hI
    rw [h I] at this
    cases this
  · exact hrun

theorem Reachable.reached [NeZero N] [∀ k, Inhabited (Types k)] {s : vector_base N Types}
    (h : Reachable s) : Reached s := by
  have hnone : ∀ k : Fin N, (fun _ : Fin N => (none : Option Error)) k = none := fun _ => rfl
  induction h with
  | mk_empty => exact .mk_empty
  | push_back s a _ ih =>
    have := Reached.push_back (fun _ => none) s a ih
    rw [push_back_raising, run_columns_no_raise _ _ _ hnone] at this
    exact this
  | pop_back s _ h0 ih => exact .pop_back s ih h0
  | insert s p a _ hp ih =>
    have := Reached.insert (fun _ => none) s p a ih hp
    rw [insert_raising, run_columns_no_raise _ _ _ hnone] at this
    exact this
  | erase_range s a b _ hab hb ih => exact .erase_range s a b ih hab hb
  | erase s p _ hp ih => exact .erase s p ih hp
  | resize s n _ ih => exact .resize s n ih
  | resize_fill s n a _ ih =>
    have := Reached.resize_fill (fun _ => none) s n a ih
    have hrun : s.resize_raising (fun _ => none) n a = (none, s.resize_fill n a) := by
      simp only [resize_raising, ite_self]
      exact run_columns_no_raise (fun _ => none) _ s hnone
    rw [hrun] at this
    exact this
  | reserve s n _ ih => exact .reserve s n ih
  | shrink_to_fit s _ ih => exact .shrink_to_fit s ih
  | clear s _ ih => exact .clear s ih

end vector_base

/-- Counterexample to claim C1 as stated: the store of `(1,"a")`, `(2,"b")`, `(3,"c")` is reached
by three `push_back` calls, a fourth `push_back`, within its precondition, raises while it
grows column 1, and the store it leaves behind has a column of length 4 and a column of
length 3. -/
theorem reached_columns_unequal :
    vector_base.Reached example_store ∧
      vector_base.Reached
        (example_store.push_back_raising raises_in_column_one (example_row 4 "d")).2 ∧
      ((example_store.push_back_raising raises_in_column_one
        (example_row 4 "d")).2.m_soa 0).data.length = 4 ∧
      ((example_store.push_back_raising raises_in_column_one
        (example_row 4 "d")).2.m_soa 1).data.length = 3 ∧
      ¬ ∀ j k,
        ((example_store.push_back_raising raises_in_column_one
            (example_row 4 "d")).2.m_soa j).data.length =
          ((example_store.push_back_raising raises_in_column_one
            (example_row 4 "d")).2.m_soa k).data.length :=
  ⟨example_store_reachable.reached,
    .push_back raises_in_column_one example_store (example_row 4 "d")
      example_store_reachable.reached,
    rfl, rfl, fun h => absurd (h 0 1) (by decide)⟩

namespace vector_base

variable {N : Nat} {Types : Fin N → Type}

end vector_base

namespace vector_base

variable {N : Nat} {Types : Fin N → Type}

end vector_base

namespace vector_base

variable {N : Nat} {Types : Fin N → Type}

/-- Claim C8, as the code behaves: on a store whose columns have equal length and for
`i < size`, pushing the tuple returned by `value_at(i)` or by `ref_at(i)` appends a row equal to
row `i`, and the new row is a copy: writing any field of the new row (index `size() - 1`)
changes that field there and leaves row `i` as it was.  The reference tuple still reads the
values of row `i` after the push and the write when the push reallocated no column, that is
when every column had its size below its capacity; a push that reallocates a column leaves the
reference tuple dangling, and nothing can be read through it. -/
theorem push_back_copies [NeZero N] (s : vector_base N Types) (hs : s.synced) (i : Nat)
    (hi : i < s.size) :
    ∃ (v : value_list Types) (r : reference_list N),
      s.value_at i = .ok v ∧ s.ref_at i = .ok r ∧ s.load_all r = some v ∧
      s.push_back_refs r = some (s.push_back v) ∧
      (s.push_back v).size = s.size + 1 ∧
      (s.push_back v).value_at ((s.push_back v).size - 1) = .ok v ∧
      (s.push_back v).value_at i = .ok v ∧
      (s.references_survive_push_back = true ↔
        ∀ k, (s.m_soa k).size < (s.m_soa k).capacity) ∧
      ∀ (F : Fin N) (x : Types F),
        (s.push_back v).at_ref F ((s.push_back v).size - 1) = .ok ⟨s.size⟩ ∧
        ((s.push_back v).store F ⟨s.size⟩ x).«at» F s.size = .ok x ∧
        ((s.push_back v).store F ⟨s.size⟩ x).value_at i = .ok v ∧
        (s.references_survive_push_back = true →
          s.load_all_after_push_back ((s.push_back v).store F ⟨s.size⟩ x) r = some v) ∧
        (s.references_survive_push_back = false →
          s.load_all_after_push_back ((s.push_back v).store F ⟨s.size⟩ x) r = none) := by
  have hlen : ∀ k, i < (s.m_soa k).data.length := fun k => by
    have := hs k
    simp only [container.size] at this
    rw [this]; exact hi
  have hv : s.value_at i = .ok fun k => (s.m_soa k).data.get ⟨i, hlen k⟩ := by
    simp only [value_at, dif_pos hlen]
  have hrow : ∀ k, (s.m_soa k).data[i]? = some ((s.m_soa k).data.get ⟨i, hlen k⟩) := fun k =>
    List.getElem?_eq_getElem (hlen k)
  have hr : s.ref_at i = .ok fun _ => ⟨i⟩ := by
    simp only [ref_at, at_internal, container.size, if_pos hlen]
  have hl : s.load_all (fun _ => ⟨i⟩) = some fun k => (s.m_soa k).data.get ⟨i, hlen k⟩ :=
    (load_all_eq_some_iff _ _ _).2 hrow
  have hsz : (s.push_back fun k => (s.m_soa k).data.get ⟨i, hlen k⟩).size = s.size + 1 :=
    container.size_push_back _ _
  have hcol : ∀ (k : Fin N) (j : Nat),
      ((s.push_back fun k => (s.m_soa k).data.get ⟨i, hlen k⟩).m_soa k).data[j]? =
        if j < s.size then (s.m_soa k).data[j]?
        else if j = s.size then some ((s.m_soa k).data.get ⟨i, hlen k⟩) else none :=
    fun k j => by
      rw [← hs k]
      exact container.getElem?_push_back _ _ _
  have hne : i ≠ s.size := Nat.ne_of_lt hi
  have hsurv : s.references_survive_push_back = true ↔
      ∀ k, (s.m_soa k).size < (s.m_soa k).capacity := by
    simp only [references_survive_push_back, container.push_back_reallocates,
      decide_eq_true_eq, decide_eq_false_iff_not, Nat.not_lt, container.size,
      container.capacity]
    exact ⟨fun h k => h k, fun h k => h k⟩
  refine ⟨_, _, hv, hr, hl, ?_, hsz, ?_, ?_, hsurv, fun F x => ⟨?_, ?_, ?_, fun h => ?_,
    fun h => ?_⟩⟩
  · simp only [push_back_refs, hl, Option.map_some', vector_base.push_back]
  · rw [hsz, Nat.add_sub_cancel, value_at_eq_ok_iff]
    intro k
    rw [hcol k, if_neg (Nat.lt_irrefl _), if_pos rfl]
  · rw [value_at_eq_ok_iff]
    intro k
    rw [hcol k, if_pos hi, hrow k]
  · rw [hsz, Nat.add_sub_cancel]
    have : s.size < ((s.push_back fun k => (s.m_soa k).data.get ⟨i, hlen k⟩).m_soa F).size := by
      simp only [vector_base.push_back, push_back_internal, container.size_push_back, hs F]
      exact Nat.lt_succ_self _
    simp only [at_ref, if_pos this]
  · rw [at_eq_ok_iff]
    refine getElem?_store_self _ F ⟨s.size⟩ x ?_
    simp only [vector_base.push_back, push_back_internal, container.size_push_back, hs F]
    exact Nat.lt_succ_self _
  · rw [value_at_eq_ok_iff]
    intro k
    rw [getElem?_store_of_ne _ F ⟨s.size⟩ x k i hne, hcol k, if_pos hi, hrow k]
  · rw [load_all_after_push_back, if_pos h, load_all_eq_some_iff]
    intro k
    show ((_ : vector_base N Types).m_soa k).data[i]? = _
    rw [getElem?_store_of_ne _ F ⟨s.size⟩ x k i hne, hcol k, if_pos hi, hrow k]
  · rw [load_all_after_push_back, if_neg (by rw [h]; exact Bool.false_ne_true)]

end vector_base

/-- Counterexample to claim C8 as stated: after `shrink_to_fit()` the store of `(1,"a")`,
`(2,"b")`, `(3,"c")` has size 3 and capacity 3 in both columns; pushing the reference tuple of
row 0 appends a copy of the row, but the push reallocates and the reference tuple dangles: its
values cannot be read any more. -/
theorem push_back_invalidates_reference_tuple :
    (example_store.shrink_to_fit.synced ∧ 0 < example_store.shrink_to_fit.size) ∧
      example_store.shrink_to_fit.ref_at 0 = .ok (fun _ => ⟨0⟩) ∧
      example_store.shrink_to_fit.load_all (fun _ => ⟨0⟩) = some (example_row 1 "a") ∧
      example_store.shrink_to_fit.push_back_refs (fun _ => ⟨0⟩)
        = some (example_store.shrink_to_fit.push_back (example_row 1 "a")) ∧
      (∀ k, (example_store.shrink_to_fit.m_soa k).size = 3 ∧
        (example_store.shrink_to_fit.m_soa k).capacity = 3) ∧
      example_store.shrink_to_fit.references_survive_push_back = false ∧
      example_store.shrink_to_fit.load_all_after_push_back
        (example_store.shrink_to_fit.push_back (example_row 1 "a")) (fun _ => ⟨0⟩) = none :=
  ⟨⟨by unfold vector_base.synced; decide, by decide⟩, rfl, rfl, rfl, by decide, by decide, rfl⟩

/-- Witness for claim C8 as the code behaves: row 0 of the store of `(1,"a")`, `(2,"b")`,
`(3,"c")`, of capacity 4, is pushed as a value tuple and as a reference tuple, then field 1 of
the new row is overwritten with `"w"`; the push reallocates nothing. -/
theorem push_back_copies_witness :
    (example_store.synced ∧ 0 < example_store.size) ∧
      example_store.references_survive_push_back = true ∧
      ∃ (v : value_list ExampleTypes) (r : reference_list 2),
        example_store.value_at 0 = .ok v ∧ example_store.ref_at 0 = .ok r ∧
        example_store.load_all r = some v ∧
        example_store.push_back_refs r = some (example_store.push_back v) ∧
        (example_store.push_back v).size = example_store.size + 1 ∧
        (example_store.push_back v).value_at ((example_store.push_back v).size - 1) = .ok v ∧
        (example_store.push_back v).value_at 0 = .ok v ∧
        (example_store.references_survive_push_back = true ↔
          ∀ k, (example_store.m_soa k).size < (example_store.m_soa k).capacity) ∧
        ∀ (F : Fin 2) (x : ExampleTypes F),
          (example_store.push_back v).at_ref F ((example_store.push_back v).size - 1)
            = .ok ⟨example_store.size⟩ ∧
          ((example_store.push_back v).store F ⟨example_store.size⟩ x).«at» F example_store.size
            = .ok x ∧
          ((example_store.push_back v).store F ⟨example_store.size⟩ x).value_at 0 = .ok v ∧
          (example_store.references_survive_push_back = true →
            example_store.load_all_after_push_back
              ((example_store.push_back v).store F ⟨example_store.size⟩ x) r = some v) ∧
          (example_store.references_survive_push_back = false →
            example_store.load_all_after_push_back
              ((example_store.push_back v).store F ⟨example_store.size⟩ x) r = none) :=
  ⟨⟨example_store_synced, by decide⟩, by decide,
    vector_base.push_back_copies example_store example_store_synced 0 (by decide)⟩

end soa
